import Mathlib

/-!
# Verification of the Lightweight Orchestration Core (LOC) engine

A shallow embedding of the LOC `CoreEngine` (src/engine/CoreEngine.js,
final revision) together with its `MetaReflectionModule`,
`TaskValidator` and `AgentValidator`, and proofs about the embedded
operations.

Modelling conventions:
* JavaScript numbers are modelled as rationals (`ℚ`).  At the Dispatcher
  boundary a field may also be `NaN` or `undefined`; those are modelled
  by the type `JNum` below, whose comparison and arithmetic mirror the
  JavaScript semantics that the engine actually exercises
  (`NaN < c` and `undefined < c` are `false`; `x + NaN = NaN`).
* `Number.prototype.toFixed(d)` followed by `parseFloat` is modelled as
  rounding half-up to `d` decimal digits on exact rationals
  (`roundDec`); on `NaN` it yields `NaN` again.
* JavaScript objects used as string-keyed maps (`skillScores`,
  `performanceData.domains`, `taskOutputs`, `collaborationSpace`) are
  modelled as association lists; `this.agents` and `this.taskQueue`
  preserve insertion order exactly as JS objects/arrays do.
* `x || d` on a JS number is `d` when `x` is `0`, `NaN` or absent, and
  `x` otherwise; `qOr`, `optQOr` and `jOrZero` model the cases used.
* Wall-clock timestamps (`timestamp`, `lastActive`, `registeredAt`) and
  log emission have no influence on any state transition and are
  omitted.  The `uuid`-generated fresh identifiers are passed in as
  parameters, with freshness recorded as hypotheses where needed.
-/

namespace LOC

/-- A JavaScript number as it can appear in a Dispatcher result:
a genuine number, `NaN`, or an absent (`undefined`) field. -/
inductive JNum : Type
  | nan : JNum
  | undef : JNum
  | num : ℚ → JNum
deriving DecidableEq, Repr

namespace JNum

/-- JS `x < c` for a result field `x` and a number literal `c`:
`NaN` and `undefined` compare `false`. -/
def jlt : JNum → ℚ → Bool
  | num q, c => decide (q < c)
  | _, _ => false

/-- JS `x || 0`: `0`, `NaN` and `undefined` are falsy. -/
def jOrZero : JNum → ℚ
  | num q => q
  | _ => 0

/-- JS `+` on possibly-`NaN`/`undefined` values: any non-number operand
poisons the sum to `NaN`. -/
def jadd : JNum → JNum → JNum
  | num a, num b => num (a + b)
  | _, _ => nan

/-- JS division of an accumulated sum by a count: `0 / 0` is `NaN`. -/
def jdiv : JNum → ℚ → JNum
  | num a, n => if n = 0 then nan else num (a / n)
  | _, _ => nan

end JNum

/-- JS `q || d` for a plain number `q` already known to be numeric:
`0` is falsy. -/
def qOr (q d : ℚ) : ℚ := if q = 0 then d else q

/-- JS `o || d` for an optional number: absent or `0` falls back to `d`. -/
def optQOr (o : Option ℚ) (d : ℚ) : ℚ :=
  match o with
  | some q => if q = 0 then d else q
  | none => d

/-- Model of `task.priority || 1`, the default priority used throughout the
engine. -/
def priOr1 (o : Option ℚ) : ℚ := optQOr o 1

/-- Rounding (`parseFloat(x.toFixed(d))`) modelled as half-up rounding to `d`
decimal digits on an exact rational. -/
def roundDec (d : ℕ) (q : ℚ) : ℚ := ((⌊q * 10 ^ d + 1 / 2⌋ : ℤ) : ℚ) / 10 ^ d

/-- Rounding (`parseFloat(x.toFixed(d))`) on a Dispatcher-boundary value:
`NaN.toFixed` stringifies to `"NaN"` and parses back to `NaN`. -/
def jRound (d : ℕ) : JNum → JNum
  | JNum.num q => JNum.num (roundDec d q)
  | _ => JNum.nan

/-- Stringification of a possibly-absent `resultData` field, as used by
template literals in the aggregator (`undefined` prints as
`"undefined"`). -/
def jstr : Option String → String
  | some s => s
  | none => "undefined"

/-- Agent status, the only agent field the scheduler mutates. -/
inductive AgentStatus : Type
  | idle | busy
deriving DecidableEq, Repr

/-- Task lifecycle status. -/
inductive TaskStatus : Type
  | pending | processing | waitingForSubtasks | completed | failed
deriving DecidableEq, Repr

/-- Domain-indexed performance entry maintained by the
Meta-Reflection module (`agent.performanceData.domains[domain]`). -/
structure DomainPerf : Type where
  tasksCompleted : ℚ
  successRate : ℚ
  averageImpact : ℚ
  uncertainty : ℚ
  confidence : ℚ
deriving DecidableEq, Repr

/-- Global performance rollups plus the domain-indexed map
(`agent.performanceData`). -/
structure Perf : Type where
  tasksCompleted : ℚ
  successRate : ℚ
  averageImpact : ℚ
  domains : List (String × DomainPerf)
deriving DecidableEq, Repr

/-- A registered agent as stored in `this.agents`. -/
structure Agent : Type where
  id : String
  domainLabels : List String
  skillScores : List (String × ℚ)
  apiEndpoint : String
  performanceData : Perf
  status : AgentStatus
deriving DecidableEq, Repr

/-- A task as stored in `this.taskQueue` (created by `submitTask` or
`decomposeTask`, or — as the repository's own tests do — pushed
directly onto the queue). -/
structure Task : Type where
  id : String
  description : String
  domainLabel : String
  complexityScore : ℚ
  priority : Option ℚ
  status : TaskStatus
  assignedTo : Option String
  retryCount : ℕ
  failedAgents : List String
  dependencies : List String
  subtasks : List String
  parentTaskId : Option String
  predictedImpact : ℚ
  predictedSuccess : ℚ
  interferedBy : List String
  isCollaborative : Bool
deriving DecidableEq, Repr

/-- A record stored in `this.taskOutputs[taskId]` by `logOutput`.
`predictedImpact` and `actualImpact` are numeric at storage time
(`task.predictedImpact` resp. `output.actualImpact || 0`); the other
Dispatcher-provided fields are stored raw. -/
structure Output : Type where
  taskId : String
  agentId : String
  resultData : Option String
  confidenceScore : JNum
  predictedImpact : ℚ
  actualImpact : ℚ
  executionTime : JNum
deriving DecidableEq, Repr

/-- One shared entry of a collaboration context
(`context.sharedResults[taskId]`); `data` holds the
`JSON.stringify`-ed payload. -/
structure CollabShared : Type where
  agentId : String
  data : String
deriving DecidableEq, Repr

/-- A collaboration context (`this.collaborationSpace[contextId]`).
Only `sharedResults` is read by the aggregator; `requests` and
`syncPoints` never influence scheduling and are omitted. -/
structure CollabContext : Type where
  sharedResults : List (String × CollabShared)
deriving DecidableEq, Repr

/-- The engine's mutable state.  `collaborationLogs` (append-only
audit log) is omitted: nothing reads it. -/
structure EngineState : Type where
  agents : List Agent
  taskQueue : List Task
  taskOutputs : List Output
  collaborationSpace : List (String × CollabContext)
deriving DecidableEq, Repr

/-- The state of a fresh engine (`new CoreEngine()`). -/
def initState : EngineState :=
  { agents := [], taskQueue := [], taskOutputs := [], collaborationSpace := [] }

/-- A value resolved by `dispatchToAgent` (the Dispatcher boundary is
untyped; every numeric field may be `NaN` or absent, and `resultData`
may be absent).  A `null`/`undefined` result makes the engine's first
property access throw inside the `try` block, which lands in the same
`catch` as a rejection; it is therefore covered by
`DispatchOutcome.rejected`. -/
structure DispatchResult : Type where
  resultData : Option String
  confidenceScore : JNum
  actualImpact : JNum
  executionTime : JNum
  predictedImpact : JNum := JNum.undef
deriving DecidableEq, Repr

/-- Outcome of one dispatch: the promise rejected (or the resolved
value was `null`/`undefined`, see `DispatchResult`), or it resolved
with a structured value. -/
inductive DispatchOutcome : Type
  | rejected : DispatchOutcome
  | resolved : DispatchResult → DispatchOutcome
deriving DecidableEq, Repr

/-- A remediation strategy suggested by the Meta-Reflection module. -/
inductive Strategy : Type
  | split | collaborate | reroute
deriving DecidableEq, Repr

/-- The payload of a `submitTask` call (fields of `taskData` the engine
reads).  `none` models an absent or falsy-empty field. -/
structure TaskData : Type where
  description : Option String
  domainLabel : Option String
  complexityScore : Option ℚ
  priority : Option ℚ
  dependencies : List String
  parentTaskId : Option String
  interferedBy : List String
deriving DecidableEq, Repr

/-- The payload of a `registerAgent` call. -/
structure AgentMeta : Type where
  id : Option String
  domainLabels : List String
  skillScores : List (String × ℚ)
  apiEndpoint : String
  performanceData : Perf
deriving DecidableEq, Repr

/-- Association-list lookup mirroring a JS object read `m[k]`. -/
def alookup {α : Type} (m : List (String × α)) (k : String) : Option α :=
  (m.find? (fun p => p.1 == k)).map Prod.snd

/-- Model of `validateTask` (src/engine/TaskValidator.js).  `VALID_DOMAINS` is an
externally configured list (src/constants/Domains.js is not part of the
core) and is passed as a parameter.  `true` iff the errors array would
be empty. -/
def validateTask (validDomains : List String) (t : TaskData) : Bool :=
  (match t.description with
   | some s => s ≠ ""
   | none => false) &&
  (match t.domainLabel with
   | some d => d ≠ "" && validDomains.contains d
   | none => false) &&
  (match t.complexityScore with
   | some c => 1 ≤ c && c ≤ 10
   | none => false)

/-- Model of `validateAgent` (src/engine/AgentValidator.js).  The `typeof`
checks on `skillScores` and `performanceData` are discharged statically
by the embedding's types. -/
def validateAgent (validDomains : List String) (agents : List Agent)
    (m : AgentMeta) : Bool :=
  (match m.id with
   | some i => agents.all (fun a => a.id ≠ i)
   | none => true) &&
  (m.domainLabels ≠ [] && m.domainLabels.all (fun l => validDomains.contains l)) &&
  m.apiEndpoint ≠ ""

/-! ## Meta-Reflection module (src/engine/MetaReflectionModule.js) -/

/-- The success-probability threshold `this.threshold = 0.65`. -/
def threshold : ℚ := 13 / 20

/-- Default domain entry used by `predictSuccess` when the agent has no
record for the task's domain. -/
def defaultDomainPerf : DomainPerf :=
  { tasksCompleted := 0, successRate := 1 / 2, averageImpact := 0,
    uncertainty := 1, confidence := 0 }

/-- Model of `MetaReflectionModule.predictSuccess(agent, task)`.  The skill
fallback chain is `skillScores[domain] || (sum(values) / 10) || 5`
(note: the source divides the value *sum* by `10`, not by the count).
The interference scan reads the engine's task queue. -/
def predictSuccess (queue : List Task) (a : Agent) (t : Task) : ℚ :=
  let dp := (alookup a.performanceData.domains t.domainLabel).getD defaultDomainPerf
  let skillSum : ℚ := (a.skillScores.map Prod.snd).sum
  let skillRaw : ℚ := optQOr (alookup a.skillScores t.domainLabel) (qOr (skillSum / 10) 5)
  let skillScore : ℚ := skillRaw / 10
  let historyScore : ℚ := dp.successRate
  let uncertainty : ℚ := qOr dp.uncertainty (1 / (dp.tasksCompleted + 1))
  let prediction : ℚ := historyScore * (1 - uncertainty) + skillScore * uncertainty
  let interferers : ℕ :=
    (queue.filter (fun x =>
      t.interferedBy.contains x.domainLabel &&
      (x.status == TaskStatus.processing || x.status == TaskStatus.completed))).length
  let adjusted : ℚ :=
    if 0 < interferers then
      max (1 / 10) (prediction - (interferers : ℚ) * (15 / 100))
    else prediction
  roundDec 4 adjusted

/-- First element attaining the strictly greatest score — the head of
a stable descending sort, as produced by `evaluations.sort(...)[0]`. -/
def argmaxBy {α : Type} (f : α → ℚ) : List α → Option α
  | [] => none
  | x :: xs => some (xs.foldl (fun acc y => if f acc < f y then y else acc) x)

/-- Model of `MetaReflectionModule.evaluateAssignment(task, excludeIds)`:
over idle, non-excluded agents return the arg-max of `predictSuccess`
with its prediction (`none` models `{agentId: null}`). -/
def evaluateAssignment (s : EngineState) (t : Task) (excludeIds : List String) :
    Option (String × ℚ) :=
  let available := s.agents.filter
    (fun a => a.status == AgentStatus.idle && !(excludeIds.contains a.id))
  (argmaxBy (fun a => predictSuccess s.taskQueue a t) available).map
    (fun a => (a.id, predictSuccess s.taskQueue a t))

/-- Model of `MetaReflectionModule.predictImpact(task)`:
`0.6·(complexity||5)·(1 + (priority||1)/10) + 0.4·domainAverage`,
rounded to two decimals. -/
def predictImpact (agents : List Agent) (complexity : ℚ) (priority : Option ℚ)
    (domain : String) : ℚ :=
  let baseImpact := qOr complexity 5
  let priorityMultiplier := 1 + priOr1 priority / 10
  let stats := agents.foldl
    (fun (acc : ℚ × ℚ) a =>
      match alookup a.performanceData.domains domain with
      | some dp =>
        if 0 < dp.tasksCompleted then
          (acc.1 + dp.averageImpact * dp.tasksCompleted, acc.2 + dp.tasksCompleted)
        else acc
      | none => acc)
    ((0 : ℚ), (0 : ℚ))
  let avgDomainImpact := if 0 < stats.2 then stats.1 / stats.2 else 5
  roundDec 2 (baseImpact * priorityMultiplier * (6 / 10) + avgDomainImpact * (4 / 10))

/-- Model of `MetaReflectionModule.suggestRemediation(task, predictedSuccess)`. -/
def suggestRemediation (s : EngineState) (t : Task) : Strategy :=
  if 6 < t.complexityScore then Strategy.split
  else
    let others := s.agents.filter (fun a =>
      a.domainLabels.contains t.domainLabel ||
      decide (4 < (alookup a.skillScores t.domainLabel).getD 0))
    if 1 < others.length then Strategy.collaborate else Strategy.reroute

/-- Model of `MetaReflectionModule.updateAgentMetadata(agentId, domain, success,
impact)`: create-or-update the agent's domain entry with running means,
asymptotically decreasing uncertainty, and blended confidence. -/
def updateAgentMetadata (s : EngineState) (agentId domain : String)
    (success : Bool) (impact : ℚ) : EngineState :=
  { s with agents := s.agents.map (fun a =>
      if a.id = agentId then
        let dp := (alookup a.performanceData.domains domain).getD
          { tasksCompleted := 0, successRate := 0, averageImpact := 0,
            uncertainty := 1, confidence := 1 / 2 }
        let tc := dp.tasksCompleted + 1
        let sr := (dp.successRate * (tc - 1) + (if success then 1 else 0)) / tc
        let ai := if success then (dp.averageImpact * (tc - 1) + impact) / tc
                  else dp.averageImpact
        let unc := 1 / (tc + 1)
        let dp' : DomainPerf :=
          { tasksCompleted := tc, successRate := sr, averageImpact := ai,
            uncertainty := unc, confidence := sr * (7 / 10) + (1 - unc) * (3 / 10) }
        let found := (alookup a.performanceData.domains domain).isSome
        let domains' :=
          if found then
            a.performanceData.domains.map (fun p => if p.1 = domain then (p.1, dp') else p)
          else a.performanceData.domains ++ [(domain, dp')]
        { a with performanceData := { a.performanceData with domains := domains' } }
      else a) }

/-! ## Core engine operations (src/engine/CoreEngine.js) -/

/-- The queue comparator of `submitTask`/`decomposeTask`: priority
descending, ties by predicted impact descending (`le a b` keeps `a`
first). -/
def taskLe (a b : Task) : Bool :=
  if priOr1 a.priority ≠ priOr1 b.priority then priOr1 b.priority < priOr1 a.priority
  else decide (b.predictedImpact ≤ a.predictedImpact)

/-- Re-sort of `this.taskQueue`.  JS `Array.prototype.sort` is stable,
and a stable sort for a total transitive comparator is unique, so it is
modelled by insertion sort (which, unlike `mergeSort`, is structurally
recursive and hence kernel-evaluable). -/
def sortQueue (q : List Task) : List Task :=
  q.insertionSort (fun a b => taskLe a b = true)

/-- Update the task with the given id in place (JS mutates the found
object; ids are unique along reachable states). -/
def updateTask (s : EngineState) (taskId : String) (f : Task → Task) : EngineState :=
  { s with taskQueue := s.taskQueue.map (fun t => if t.id = taskId then f t else t) }

/-- Set an agent's status; a no-op when the id is absent, mirroring the
`if (this.agents[agentId])` guards. -/
def setAgentStatus (s : EngineState) (agentId : String) (st : AgentStatus) : EngineState :=
  { s with agents := s.agents.map (fun a => if a.id = agentId then { a with status := st } else a) }

/-- Model of `CoreEngine.registerAgent(metadata)`.  On validation failure the
method throws and the state is unchanged.  `genId` stands for the
`agent_${uuid}` fresh identifier used when `metadata.id` is falsy. -/
def registerAgent (validDomains : List String) (s : EngineState)
    (m : AgentMeta) (genId : String) : EngineState :=
  if validateAgent validDomains s.agents m then
    { s with agents := s.agents ++
        [{ id := m.id.getD genId,
           domainLabels := m.domainLabels,
           skillScores := m.skillScores,
           apiEndpoint := m.apiEndpoint,
           performanceData := m.performanceData,
           status := AgentStatus.idle }] }
  else s

/-- Model of `CoreEngine.submitTask(taskData)`.  On validation failure the
method throws and the state is unchanged.  `tid` stands for the
`task_${uuid}` fresh identifier. -/
def submitTask (validDomains : List String) (s : EngineState)
    (d : TaskData) (tid : String) : EngineState :=
  if validateTask validDomains d then
    let task : Task :=
      { id := tid,
        description := (match d.description with | some x => x | none => ""),
        domainLabel := (match d.domainLabel with | some x => x | none => ""),
        complexityScore := (match d.complexityScore with | some x => x | none => 0),
        priority := d.priority,
        status := TaskStatus.pending,
        assignedTo := none,
        retryCount := 0,
        failedAgents := [],
        dependencies := d.dependencies,
        subtasks := [],
        parentTaskId := d.parentTaskId,
        predictedImpact := 0,
        predictedSuccess := 0,
        interferedBy := d.interferedBy,
        isCollaborative := false }
    let task := { task with
      predictedImpact := predictImpact s.agents task.complexityScore task.priority task.domainLabel }
    { s with taskQueue := sortQueue (s.taskQueue ++ [task]) }
  else s

/-- Model of `CoreEngine.calculateCompatibility(agent, task)` — the 40/30/20/10
weighted score, rounded to four decimals. -/
def calculateCompatibility (a : Agent) (t : Task) : ℚ :=
  let domainMatch : ℚ := if a.domainLabels.contains t.domainLabel then 1 else 0
  let skillValues := a.skillScores.map Prod.snd
  let avgSkill : ℚ := skillValues.sum / (if skillValues.length = 0 then 1 else (skillValues.length : ℚ))
  let specificSkill : ℚ := qOr ((alookup a.skillScores t.domainLabel).getD 0) (avgSkill * (7 / 10))
  let normalizedSkill := specificSkill / 10
  let normalizedComplexity := t.complexityScore / 10
  let skillScore : ℚ :=
    if normalizedComplexity ≤ normalizedSkill then 1 else normalizedSkill / normalizedComplexity
  let successRate : ℚ := qOr a.performanceData.successRate (1 / 2)
  let experienceFactor : ℚ := min (a.performanceData.tasksCompleted / 50) 1
  let priorityWeight : ℚ := priOr1 t.priority / 10
  let reliabilityScore := experienceFactor * (1 / 2) + priorityWeight * (1 / 2)
  roundDec 4 (domainMatch * (4 / 10) + skillScore * (3 / 10) +
    successRate * (2 / 10) + reliabilityScore * (1 / 10))

/-- One entry of the `subtaskSpecs` argument of `decomposeTask`. -/
structure SubtaskSpec : Type where
  description : String
  domainLabel : String
  complexityScore : ℚ
  priority : Option ℚ
  dependencies : List String := []
deriving DecidableEq, Repr

/-- Build the subtask object `decomposeTask` pushes for one spec.
`predictImpact` only reads the (unchanged) agent registry, so computing
it against the pre-loop state is exact. -/
def mkSubtask (agents : List Agent) (parentTaskId : String)
    (sp : SubtaskSpec) (sid : String) : Task :=
  { id := sid,
    description := sp.description,
    domainLabel := sp.domainLabel,
    complexityScore := sp.complexityScore,
    priority := sp.priority,
    status := TaskStatus.pending,
    assignedTo := none,
    retryCount := 0,
    failedAgents := [],
    dependencies := sp.dependencies,
    subtasks := [],
    parentTaskId := some parentTaskId,
    predictedImpact := predictImpact agents sp.complexityScore sp.priority sp.domainLabel,
    predictedSuccess := 0,
    interferedBy := [],
    isCollaborative := false }

/-- Model of `CoreEngine.decomposeTask(parentTaskId, subtaskSpecs)`: mark the
parent `waiting_for_subtasks`, push one fresh subtask per spec, record
their ids on the parent, and re-sort the queue.  Each spec is paired
with its `subtask_${uuid}` fresh id.  When the parent is missing the
method throws and the state is unchanged. -/
def decomposeTask (s : EngineState) (parentTaskId : String)
    (specs : List (SubtaskSpec × String)) : EngineState :=
  match s.taskQueue.find? (fun t => t.id == parentTaskId) with
  | none => s
  | some _ =>
    let s1 := updateTask s parentTaskId (fun p =>
      { p with status := TaskStatus.waitingForSubtasks,
               subtasks := p.subtasks ++ specs.map Prod.snd })
    { s1 with taskQueue :=
        sortQueue (s1.taskQueue ++ specs.map (fun p => mkSubtask s.agents parentTaskId p.1 p.2)) }

/-- Model of `CoreEngine.handleTaskSplitting(task)`: decompose into two
half-complexity subtasks with priorities `(priority||1)+1` and the
parent's raw `priority`. -/
def handleTaskSplitting (s : EngineState) (t : Task) (sid1 sid2 : String) : EngineState :=
  decomposeTask s t.id
    [({ description := "Subtask 1: Initial phase of " ++ t.description,
        domainLabel := t.domainLabel,
        complexityScore := ((⌈t.complexityScore / 2⌉ : ℤ) : ℚ),
        priority := some (priOr1 t.priority + 1) }, sid1),
     ({ description := "Subtask 2: Conclusion of " ++ t.description,
        domainLabel := t.domainLabel,
        complexityScore := ((⌊t.complexityScore / 2⌋ : ℤ) : ℚ),
        priority := t.priority,
        dependencies := [] }, sid2)]

/-- Model of `CoreEngine.handleTaskCollaboration(task)`: set the collaborative
flag and bump priority by 2, clamped at 10.  (The `suggestedAction`
string tag is metadata nothing reads.) -/
def handleTaskCollaboration (s : EngineState) (taskId : String) : EngineState :=
  updateTask s taskId (fun t =>
    { t with isCollaborative := true,
             priority := some (min (priOr1 t.priority + 2) 10) })

/-- Model of `CoreEngine.handleTaskReassignment(task, agentId, reason)`. -/
def handleTaskReassignment (s : EngineState) (taskId agentId : String) : EngineState :=
  let s1 := setAgentStatus s agentId AgentStatus.idle
  updateTask s1 taskId (fun t =>
    let t1 := { t with retryCount := t.retryCount + 1,
                       failedAgents := t.failedAgents ++ [agentId] }
    if t1.retryCount < 3 then
      { t1 with status := TaskStatus.pending, assignedTo := none }
    else { t1 with status := TaskStatus.failed })

/-- Model of `CoreEngine.updateAgentPerformance(agentId, success, impact,
domain)`: bump the global rollups (running means) and, when `domain` is
truthy, forward to the Meta-Reflection domain update. -/
def updateAgentPerformance (s : EngineState) (agentId : String)
    (success : Bool) (impact : ℚ) (domain : String) : EngineState :=
  let s1 := { s with agents := s.agents.map (fun a =>
    if a.id = agentId then
      let perf := a.performanceData
      let tc := perf.tasksCompleted + 1
      let sr := (perf.successRate * (tc - 1) + (if success then 1 else 0)) / tc
      let ai := if success then (perf.averageImpact * (tc - 1) + impact) / tc
                else perf.averageImpact
      { a with performanceData :=
          { perf with tasksCompleted := tc, successRate := sr, averageImpact := ai } }
    else a) }
  if domain ≠ "" then updateAgentMetadata s1 agentId domain success impact else s1

/-- Model of `CoreEngine.handleTaskFailure(task, agentId, error)`: release the
agent with a failure learning update, then retry or abort. -/
def handleTaskFailure (s : EngineState) (taskId agentId : String) : EngineState :=
  let domain :=
    match s.taskQueue.find? (fun t => t.id == taskId) with
    | some t => t.domainLabel
    | none => ""
  let s1 :=
    if s.agents.any (fun a => a.id == agentId) then
      updateAgentPerformance (setAgentStatus s agentId AgentStatus.idle) agentId false 0 domain
    else s
  updateTask s1 taskId (fun t =>
    let t1 := { t with retryCount := t.retryCount + 1,
                       failedAgents := t.failedAgents ++ [agentId] }
    if t1.retryCount < 3 then
      { t1 with status := TaskStatus.pending, assignedTo := none }
    else { t1 with status := TaskStatus.failed })

/-- The string joined into the aggregated `resultData` for one child
output: `` `[Agent ${r.agentId}]: ${r.resultData}` ``. -/
def childLine (r : Output) : String := "[Agent " ++ r.agentId ++ "]: " ++ jstr r.resultData

/-- JS `Array.prototype.join(sep)`. -/
def joinSep (sep : String) : List String → String
  | [] => ""
  | [x] => x
  | x :: y :: ys => x ++ sep ++ joinSep sep (y :: ys)

/-- The collaborative-contribution block appended by the aggregator
when the parent context has shared results. -/
def collabBlock (ctx : CollabContext) : String :=
  ctx.sharedResults.foldl
    (fun acc p => acc ++ "[Task " ++ p.1 ++ " by Agent " ++ p.2.agentId ++ "]: " ++ p.2.data ++ "\n")
    "\n\n=== Collaborative Contributions ===\n"

/-- The `aggregatedData` string of `checkAndAggregateParent`: the
joined per-child lines, with the collaboration-bus shared contributions
of context `pid` appended when present. -/
def aggDataOf (s : EngineState) (pid : String) (subtaskResults : List Output) : String :=
  let base := joinSep "\n---\n" (subtaskResults.map childLine)
  match alookup s.collaborationSpace pid with
  | some ctx => if ctx.sharedResults ≠ [] then base ++ collabBlock ctx else base
  | none => base

/-- The `aggregatedResult` object of `checkAndAggregateParent`:
mean confidence rounded to two decimals, mean predicted and actual
impacts rounded to one decimal, summed execution time. -/
def aggregateOf (s : EngineState) (pid : String) (subtaskResults : List Output) :
    DispatchResult :=
  let n : ℚ := subtaskResults.length
  { resultData := some (aggDataOf s pid subtaskResults),
    confidenceScore := jRound 2
      ((subtaskResults.foldl (fun acc r => acc.jadd r.confidenceScore) (JNum.num 0)).jdiv n),
    predictedImpact := JNum.num
      (roundDec 1 ((subtaskResults.map (fun r => qOr r.predictedImpact 0)).sum / n)),
    actualImpact := JNum.num
      (roundDec 1 ((subtaskResults.map (fun r => qOr r.actualImpact 0)).sum / n)),
    executionTime := JNum.num ((subtaskResults.map (fun r => r.executionTime.jOrZero)).sum) }

/-- Decision part of `CoreEngine.checkAndAggregateParent(parentTaskId)`:
when the parent exists, is not yet completed, and every one of its
subtasks is completed, produce the aggregated output over the stored
child outputs; otherwise `none`. -/
def aggregationResult (s : EngineState) (parentTaskId : String) :
    Option DispatchResult :=
  match s.taskQueue.find? (fun t => t.id == parentTaskId) with
  | none => none
  | some p =>
    if p.status = TaskStatus.completed then none
    else
      let subtasks := s.taskQueue.filter (fun t => t.parentTaskId == some parentTaskId)
      if subtasks ≠ [] ∧ subtasks.all (fun t => t.status == TaskStatus.completed) then
        some (aggregateOf s parentTaskId (subtasks.filterMap
          (fun t => s.taskOutputs.find? (fun o => o.taskId == t.id))))
      else none

/-- Model of one call of `CoreEngine.logOutput(taskId, agentId, output)`:
store the output record (note `predictedImpact` is taken from the
*task*, not from the output), mark the task completed, release the
agent with a success learning update, and — for a subtask whose parent
is ready to aggregate — log the aggregate under the sentinel agent id
`AGGREGATOR_SYSTEM` through `recur`, which stands for the recursive
`logOutput` call made by `checkAndAggregateParent`. -/
def logOutputGo
    (recur : EngineState → String → String → DispatchResult → EngineState)
    (s : EngineState) (taskId agentId : String) (output : DispatchResult) :
    EngineState :=
  let task? := s.taskQueue.find? (fun t => t.id == taskId)
  let record : Output :=
    { taskId := taskId,
      agentId := agentId,
      resultData := output.resultData,
      confidenceScore := output.confidenceScore,
      predictedImpact := (match task? with | some t => t.predictedImpact | none => 0),
      actualImpact := output.actualImpact.jOrZero,
      executionTime := output.executionTime }
  let s1 := { s with taskOutputs := record :: s.taskOutputs }
  match task? with
  | none => s1
  | some t =>
    let s2 := updateTask s1 taskId (fun u => { u with status := TaskStatus.completed })
    let s3 :=
      if s2.agents.any (fun a => a.id == agentId) then
        updateAgentPerformance (setAgentStatus s2 agentId AgentStatus.idle) agentId
          true output.actualImpact.jOrZero t.domainLabel
      else s2
    match t.parentTaskId with
    | none => s3
    | some pid =>
      match aggregationResult s3 pid with
      | some aggregated => recur s3 pid "AGGREGATOR_SYSTEM" aggregated
      | none => s3

/-- Model of `CoreEngine.logOutput` with the `logOutput ↔
checkAndAggregateParent` recursion bounded by `fuel`; in the source the
recursion depth is the parent-chain length (it diverges on a cyclic
parent chain, which `fuel = 0` cuts off by leaving the state as is). -/
def logOutput : ℕ → EngineState → String → String → DispatchResult → EngineState
  | 0 => logOutputGo (fun s _ _ _ => s)
  | fuel + 1 => logOutputGo (logOutput fuel)

/-- Model of `CoreEngine.checkAndAggregateParent(parentTaskId)` as an
entry point: log the aggregated output (when `aggregationResult`
produces one) under `AGGREGATOR_SYSTEM`. -/
def checkAndAggregateParent (fuel : ℕ) (s : EngineState) (parentTaskId : String) :
    EngineState :=
  match fuel, aggregationResult s parentTaskId with
  | fuel' + 1, some aggregated =>
    logOutput fuel' s parentTaskId "AGGREGATOR_SYSTEM" aggregated
  | _, _ => s

/-- The common state transformation of one `logOutput` call once the
target task `t` has been found: store the output record, mark the task
completed, and release the logging agent with a success learning update
(a no-op when no agent carries `agentId`, as for the sentinel
aggregator id).  This is `logOutputGo` minus the find and minus the
parent-aggregation tail, factored out so that the aggregation recursion
can be reasoned about one layer at a time. -/
def logOutputCore (s : EngineState) (taskId agentId : String)
    (output : DispatchResult) (t : Task) : EngineState :=
  if s.agents.any (fun a => a.id == agentId) then
    updateAgentPerformance
      (setAgentStatus
        (updateTask
          { s with taskOutputs :=
              { taskId := taskId, agentId := agentId, resultData := output.resultData,
                confidenceScore := output.confidenceScore,
                predictedImpact := t.predictedImpact,
                actualImpact := output.actualImpact.jOrZero,
                executionTime := output.executionTime } :: s.taskOutputs }
          taskId (fun u => { u with status := TaskStatus.completed }))
        agentId AgentStatus.idle)
      agentId true output.actualImpact.jOrZero t.domainLabel
  else
    updateTask
      { s with taskOutputs :=
          { taskId := taskId, agentId := agentId, resultData := output.resultData,
            confidenceScore := output.confidenceScore,
            predictedImpact := t.predictedImpact,
            actualImpact := output.actualImpact.jOrZero,
            executionTime := output.executionTime } :: s.taskOutputs }
      taskId (fun u => { u with status := TaskStatus.completed })

/-- Field-preservation contract of the queue transformation performed
by one `logOutput` call with target task id `tid`: every task keeps
its identity, assignment, sub-task list and parent pointer, and a
status change can only be a completion — of the target, or of a task
with recorded sub-tasks (a parent reached by the aggregation
recursion). -/
def CompletionOnly (tid : String) (f : Task → Task) (t : Task) : Prop :=
  (f t).id = t.id ∧ (f t).assignedTo = t.assignedTo ∧
  (f t).subtasks = t.subtasks ∧ (f t).parentTaskId = t.parentTaskId ∧
  ((f t).status = t.status ∨
    ((f t).status = TaskStatus.completed ∧ (t.subtasks ≠ [] ∨ t.id = tid)))

/-- Effect contract of the aggregation continuation of `logOutputGo`
(which is always invoked under the sentinel agent id): on a queue with
unique ids, where recorded parents have non-empty sub-task lists and
are never `processing`, and with no agent named after the sentinel, the
continuation only completes tasks (per `CompletionOnly`) and leaves
every agent's identity and status unchanged. -/
def AggEffect
    (recur : EngineState → String → String → DispatchResult → EngineState) : Prop :=
  ∀ (s : EngineState) (tid : String) (out : DispatchResult),
    (s.taskQueue.map Task.id).Nodup →
    (∀ u ∈ s.taskQueue, u.subtasks ≠ [] → u.status ≠ TaskStatus.processing) →
    (∀ t ∈ s.taskQueue, ∀ pid, t.parentTaskId = some pid →
      ∃ u ∈ s.taskQueue, u.id = pid ∧ u.subtasks ≠ []) →
    (∀ a ∈ s.agents, a.id ≠ "AGGREGATOR_SYSTEM") →
    ∃ f : Task → Task, ∃ g : Agent → Agent,
      (recur s tid "AGGREGATOR_SYSTEM" out).taskQueue = s.taskQueue.map f ∧
      (recur s tid "AGGREGATOR_SYSTEM" out).agents = s.agents.map g ∧
      (∀ t ∈ s.taskQueue, CompletionOnly tid f t) ∧
      (∀ a ∈ s.agents, (g a).id = a.id ∧ (g a).status = a.status)

/-- The ready filter of `processQueue`: pending, no initialized
subtasks, and every dependency resolved to a completed task in the
queue. -/
def isReady (queue : List Task) (t : Task) : Bool :=
  t.status == TaskStatus.pending &&
  t.subtasks == [] &&
  t.dependencies.all (fun depId =>
    match queue.find? (fun u => u.id == depId) with
    | some dep => dep.status == TaskStatus.completed
    | none => false)

/-- Selection (`this.taskQueue.find(...)`) at the top of `processQueue`. -/
def findNextTask (s : EngineState) : Option Task :=
  s.taskQueue.find? (isReady s.taskQueue)

/-- The dispatch commit inside `processQueue`: task to `processing`
with `assignedTo`/`predictedSuccess` recorded, agent to `busy`. -/
def assignTaskToAgent (s : EngineState) (taskId agentId : String) (p : ℚ) : EngineState :=
  let s1 := updateTask s taskId (fun t =>
    { t with status := TaskStatus.processing, assignedTo := some agentId,
             predictedSuccess := p })
  setAgentStatus s1 agentId AgentStatus.busy

/-- The synchronous prefix of `CoreEngine.processQueue()` (everything
up to and including the `await this.dispatchToAgent(...)` suspension):
select the next ready task, evaluate the assignment, apply a
remediation strategy when the predicted success is below threshold, and
otherwise commit the dispatch.  Returns the new state plus the
`(taskId, agentId)` pair of the started dispatch, if any.  `sid1, sid2`
are the fresh subtask ids consumed by the `SPLIT` strategy. -/
def processQueueStart (s : EngineState) (sid1 sid2 : String) :
    EngineState × Option (String × String) :=
  match findNextTask s with
  | none => (s, none)
  | some t =>
    match evaluateAssignment s t t.failedAgents with
    | none => (s, none)
    | some (agentId, p) =>
      if p < threshold then
        match suggestRemediation s t with
        | Strategy.split => (handleTaskSplitting s t sid1 sid2, none)
        | Strategy.reroute => (s, none)
        | Strategy.collaborate =>
          (assignTaskToAgent (handleTaskCollaboration s t.id) t.id agentId p,
           some (t.id, agentId))
      else (assignTaskToAgent s t.id agentId p, some (t.id, agentId))

/-- The continuation of `processQueue` that runs when the dispatch
settles: a rejection (or a `null` resolution, whose property access
throws into the same `catch`) takes the failure path; a resolution with
`confidenceScore < 0.6` takes the reassignment path; anything else is
committed by `logOutput`. -/
def applyDispatchOutcome (s : EngineState) (taskId agentId : String)
    (outcome : DispatchOutcome) : EngineState :=
  match outcome with
  | DispatchOutcome.rejected => handleTaskFailure s taskId agentId
  | DispatchOutcome.resolved r =>
    if r.confidenceScore.jlt (6 / 10) then handleTaskReassignment s taskId agentId
    else logOutput s.taskQueue.length s taskId agentId r

/-! ## Reachable engine states

A configuration is the engine state together with the list of
in-flight dispatches (the pending `processQueue` continuations of the
single-threaded event loop).  `Step` has one constructor per public
engine operation; the `uuid`-generated identifiers appear as
parameters with freshness hypotheses.

The `strict` flag restricts the operation surface to the submission
schema of the specification: `strict = true` forbids user-supplied
`parentTaskId` fields at submission (sub-tasks then arise only from
`decomposeTask`) and forbids registering an agent under the sentinel
id `AGGREGATOR_SYSTEM`. -/

/-- A configuration: engine state plus in-flight `(taskId, agentId)`
dispatches. -/
abbrev Config : Type := EngineState × List (String × String)

/-- One engine operation. -/
inductive Step (validDomains : List String) (strict : Bool) : Config → Config → Prop
  | register (s : EngineState) (fl : List (String × String)) (m : AgentMeta) (genId : String)
      (hfresh : m.id = none → s.agents.all (fun a => a.id ≠ genId))
      (hstrict : strict = true → m.id.getD genId ≠ "AGGREGATOR_SYSTEM") :
      Step validDomains strict (s, fl) (registerAgent validDomains s m genId, fl)
  | submit (s : EngineState) (fl : List (String × String)) (d : TaskData) (tid : String)
      (hfresh : s.taskQueue.all (fun t => t.id ≠ tid))
      (hstrict : strict = true → d.parentTaskId = none) :
      Step validDomains strict (s, fl) (submitTask validDomains s d tid, fl)
  | tick (s : EngineState) (fl : List (String × String)) (sid1 sid2 : String)
      (h1 : s.taskQueue.all (fun t => t.id ≠ sid1))
      (h2 : s.taskQueue.all (fun t => t.id ≠ sid2))
      (hne : sid1 ≠ sid2) :
      Step validDomains strict (s, fl)
        ((processQueueStart s sid1 sid2).1,
         match (processQueueStart s sid1 sid2).2 with
         | some p => p :: fl
         | none => fl)
  | resolve (s : EngineState) (fl : List (String × String)) (taskId agentId : String)
      (outcome : DispatchOutcome)
      (hmem : (taskId, agentId) ∈ fl) :
      Step validDomains strict (s, fl)
        (applyDispatchOutcome s taskId agentId outcome, fl.erase (taskId, agentId))

/-- Configurations reachable from a fresh engine by engine
operations. -/
inductive Reach (validDomains : List String) (strict : Bool) : Config → Prop
  | init : Reach validDomains strict (initState, [])
  | step {c c' : Config} : Reach validDomains strict c →
      Step validDomains strict c c' → Reach validDomains strict c'

/-- The busy/processing linkage stated by the specification
(§8, property 1). -/
def AgentTaskInv (s : EngineState) : Prop :=
  ∀ a ∈ s.agents,
    (a.status = AgentStatus.busy ↔
      ∃ t ∈ s.taskQueue, t.status = TaskStatus.processing ∧ t.assignedTo = some a.id)

/-- One scheduler tick of the execution loop, viewed on the engine
state (the fresh subtask ids are only consumed when a `SPLIT` fires). -/
def schedTick (s : EngineState) : EngineState :=
  (processQueueStart s "fresh_sub_1" "fresh_sub_2").1

/-! ## Specification-side formulas (for refinement comparisons)

These definitions follow the *wording of the specification/claims*, to
be compared against the source-derived definitions above. -/

/-- Compatibility score exactly as claim C7 words it: `0.4·domain +
0.3·skillFit + 0.2·successRate (0.5 only with no history) +
0.1·(0.5·min(tasksCompleted/50,1) + 0.5·priority/10)`, with
`s = skillScores[domain]` whenever the entry is present and
`0.7·mean(skills)` otherwise, and no final rounding. -/
def compatClaimFormula (a : Agent) (t : Task) : ℚ :=
  let domainComponent : ℚ := if a.domainLabels.contains t.domainLabel then 1 else 0
  let meanSkill : ℚ := (a.skillScores.map Prod.snd).sum / (a.skillScores.length : ℚ)
  let s : ℚ :=
    match alookup a.skillScores t.domainLabel with
    | some v => v
    | none => (7 / 10) * meanSkill
  let ns : ℚ := s / 10
  let nc : ℚ := t.complexityScore / 10
  let skillComponent : ℚ := if nc ≤ ns then 1 else ns / nc
  let successComponent : ℚ :=
    if a.performanceData.tasksCompleted = 0 then 1 / 2 else a.performanceData.successRate
  let reliability : ℚ :=
    (1 / 2) * min (a.performanceData.tasksCompleted / 50) 1 +
    (1 / 2) * ((t.priority.getD 1) / 10)
  (4 / 10) * domainComponent + (3 / 10) * skillComponent +
  (2 / 10) * successComponent + (1 / 10) * reliability

/-- Compatibility score as amended for claim C7: the same weighted sum,
but with the source's JS-truthiness defaults — the skill entry falls
back to `0.7·mean` also when it is present with value `0`, the
success-rate component is `0.5` whenever the stored global success rate
is `0` (even with completed history), and the priority defaults to `1`
when absent or `0`.  The engine returns this value rounded to four
decimals. -/
def compatAmendedFormula (a : Agent) (t : Task) : ℚ :=
  let domainComponent : ℚ := if a.domainLabels.contains t.domainLabel then 1 else 0
  let skillValues := a.skillScores.map Prod.snd
  let meanSkill : ℚ :=
    skillValues.sum / (if skillValues.length = 0 then 1 else (skillValues.length : ℚ))
  let s : ℚ := qOr ((alookup a.skillScores t.domainLabel).getD 0) (meanSkill * (7 / 10))
  let ns : ℚ := s / 10
  let nc : ℚ := t.complexityScore / 10
  let skillComponent : ℚ := if nc ≤ ns then 1 else ns / nc
  let successComponent : ℚ := qOr a.performanceData.successRate (1 / 2)
  let reliability : ℚ :=
    min (a.performanceData.tasksCompleted / 50) 1 * (1 / 2) +
    priOr1 t.priority / 10 * (1 / 2)
  (4 / 10) * domainComponent + (3 / 10) * skillComponent +
  (2 / 10) * successComponent + (1 / 10) * reliability

/-! ## Concrete fixtures used by the claim theorems -/

/-- Zeroed performance rollups (a fresh agent with no history). -/
def zeroPerf : Perf :=
  { tasksCompleted := 0, successRate := 0, averageImpact := 0, domains := [] }

/-- An idle `logic` agent of skill 9. -/
def agA : Agent :=
  { id := "A", domainLabels := ["logic"], skillScores := [("logic", 9)],
    apiEndpoint := "http://a", performanceData := zeroPerf, status := AgentStatus.idle }

/-- The same agent while busy. -/
def agABusy : Agent := { agA with status := AgentStatus.busy }

/-- A plain pending `logic` task of complexity 5, priority 5, with the
given dependencies. -/
def mkTask (i : String) (deps : List String) : Task :=
  { id := i, description := i, domainLabel := "logic", complexityScore := 5,
    priority := some 5, status := TaskStatus.pending, assignedTo := none,
    retryCount := 0, failedAgents := [], dependencies := deps, subtasks := [],
    parentTaskId := none, predictedImpact := 5, predictedSuccess := 0,
    interferedBy := [], isCollaborative := false }

/-- Engine state holding the three-task dependency cycle
`tA → tB → tC → tA` of test S1 (pushed directly onto the queue, as
`tests/complex_dependency_workflow.js` does), plus an idle capable
agent. -/
def cycState : EngineState :=
  { agents := [agA],
    taskQueue := [mkTask "tA" ["tB"], mkTask "tB" ["tC"], mkTask "tC" ["tA"]],
    taskOutputs := [], collaborationSpace := [] }

/-- A task being processed by agent `A`. -/
def procTask : Task :=
  { (mkTask "T" []) with status := TaskStatus.processing, assignedTo := some "A" }

/-- State with a single in-flight dispatch of `procTask` on the busy
agent `A`. -/
def procState : EngineState :=
  { agents := [agABusy], taskQueue := [procTask], taskOutputs := [],
    collaborationSpace := [] }

/-- The corrupt Dispatcher resolution of scenario S6:
`{confidenceScore: NaN}` (all numeric fields `NaN`, no result data). -/
def nanResult : DispatchResult :=
  { resultData := none, confidenceScore := JNum.nan, actualImpact := JNum.nan,
    executionTime := JNum.nan }

/-- The engine state after the corrupt resolution is applied. -/
def nanState : EngineState :=
  applyDispatchOutcome procState "T" "A" (DispatchOutcome.resolved nanResult)

/-- State for the cascade scenario: `X` is processing on `A` with two
failures behind it, `Y` pending with a dependency on `X`. -/
def cascadeState : EngineState :=
  { agents := [agABusy],
    taskQueue :=
      [{ (mkTask "X" []) with status := TaskStatus.processing,
                              assignedTo := some "A", retryCount := 2,
                              failedAgents := ["A", "A"] },
       mkTask "Y" ["X"]],
    taskOutputs := [], collaborationSpace := [] }

/-- The state after `X`'s third dispatch rejects. -/
def cascadeAfter : EngineState :=
  applyDispatchOutcome cascadeState "X" "A" DispatchOutcome.rejected

/-- Parent task of the aggregation scenario S4, with its own
submit-time predicted impact 9. -/
def aggParent : Task :=
  { (mkTask "P" []) with status := TaskStatus.waitingForSubtasks,
                         subtasks := ["S1", "S2"], predictedImpact := 9 }

/-- First child, already completed. -/
def aggChild1 : Task :=
  { (mkTask "S1" []) with status := TaskStatus.completed,
                          parentTaskId := some "P", predictedImpact := 6 }

/-- Second child, still processing on `A`. -/
def aggChild2 : Task :=
  { (mkTask "S2" []) with status := TaskStatus.processing,
                          assignedTo := some "A", parentTaskId := some "P",
                          predictedImpact := 4 }

/-- Stored output of the first child: confidence 0.8, impact 6. -/
def aggOut1 : Output :=
  { taskId := "S1", agentId := "A", resultData := some "alpha",
    confidenceScore := JNum.num (4 / 5), predictedImpact := 6, actualImpact := 6,
    executionTime := JNum.num 100 }

/-- State in which the second child's dispatch is about to resolve. -/
def aggState : EngineState :=
  { agents := [agABusy], taskQueue := [aggParent, aggChild1, aggChild2],
    taskOutputs := [aggOut1], collaborationSpace := [] }

/-- The second child's resolution: confidence 0.9, impact 4. -/
def aggResult2 : DispatchResult :=
  { resultData := some "beta", confidenceScore := JNum.num (9 / 10),
    actualImpact := JNum.num 4, executionTime := JNum.num 50 }

/-- State after the last child completes (triggering aggregation). -/
def aggAfter : EngineState :=
  applyDispatchOutcome aggState "S2" "A" (DispatchOutcome.resolved aggResult2)

/-- Second child once completed, with its output stored. -/
def aggChild2Done : Task :=
  { aggChild2 with status := TaskStatus.completed }

/-- Stored output of the second child. -/
def aggOut2 : Output :=
  { taskId := "S2", agentId := "A", resultData := some "beta",
    confidenceScore := JNum.num (9 / 10), predictedImpact := 4, actualImpact := 4,
    executionTime := JNum.num 50 }

/-- State in which both children are completed with stored outputs and
the parent is still waiting (used to exercise the aggregator
directly). -/
def aggDoneState : EngineState :=
  { agents := [agA], taskQueue := [aggParent, aggChild1, aggChild2Done],
    taskOutputs := [aggOut2, aggOut1], collaborationSpace := [] }

/-- The complexity-9, priority-10 task of scenario S3. -/
def bigTask : Task :=
  { (mkTask "G" []) with complexityScore := 9, priority := some 10 }

/-- State holding `bigTask`. -/
def bigState : EngineState :=
  { agents := [agA], taskQueue := [bigTask], taskOutputs := [],
    collaborationSpace := [] }

/-- The state after the `SPLIT` remediation fires on `bigTask`. -/
def bigSplit : EngineState := handleTaskSplitting bigState bigTask "c1" "c2"

/-- An agent with one completed task and a stored global success rate
of `0` (one failure of history) — reachable by `registerAgent` followed
by one failed dispatch. -/
def agHist : Agent :=
  { agA with performanceData :=
      { tasksCompleted := 1, successRate := 0, averageImpact := 0, domains := [] } }

/-- A plain task used against `agHist`. -/
def compatTask : Task := mkTask "T7" []

/-- Ready task of priority 6, ahead in queue order. -/
def priTaskX : Task := { (mkTask "X" []) with priority := some 6 }

/-- Ready task of priority 7, behind in queue order (an order reachable
because `handleTaskCollaboration` bumps priorities without re-sorting,
and because tests push onto `taskQueue` directly). -/
def priTaskY : Task := { (mkTask "Y" []) with priority := some 7 }

/-- Queue in which a lower-priority ready task precedes a
higher-priority one. -/
def unsortedState : EngineState :=
  { agents := [agA], taskQueue := [priTaskX, priTaskY], taskOutputs := [],
    collaborationSpace := [] }

/-- The same two tasks in sorted order. -/
def sortedState : EngineState :=
  { agents := [agA], taskQueue := [priTaskY, priTaskX], taskOutputs := [],
    collaborationSpace := [] }

/-- A complexity-1 task (the minimum the validator accepts). -/
def minTask : Task := { (mkTask "O" []) with complexityScore := 1 }

/-- State holding `minTask`. -/
def minState : EngineState :=
  { agents := [agA], taskQueue := [minTask], taskOutputs := [],
    collaborationSpace := [] }

/-- The state after splitting the complexity-1 task. -/
def minSplit : EngineState := handleTaskSplitting minState minTask "d1" "d2"

/-- The submission payload corresponding to the second sub-task created
by splitting `minTask` (complexity `⌊1/2⌋ = 0`). -/
def minChildData : TaskData :=
  { description := some "Subtask 2: Conclusion of O", domainLabel := some "logic",
    complexityScore := some 0, priority := some 5, dependencies := [],
    parentTaskId := some "O", interferedBy := [] }

/-- Registration payload for agent `A` in the C9 trace. -/
def regMetaA : AgentMeta :=
  { id := some "A", domainLabels := ["logic"], skillScores := [("logic", 9)],
    apiEndpoint := "http://a", performanceData := zeroPerf }

/-- Registration payload for agent `B` in the C9 trace. -/
def regMetaB : AgentMeta :=
  { regMetaA with id := some "B", apiEndpoint := "http://b" }

/-- Submission payload of the parent task `P` in the C9 trace. -/
def subDataP : TaskData :=
  { description := some "P", domainLabel := some "logic", complexityScore := some 5,
    priority := none, dependencies := [], parentTaskId := none, interferedBy := [] }

/-- Submission payload of the interloper `S`, declaring the dispatched
task `P` as its parent (accepted verbatim by `submitTask`). -/
def subDataS : TaskData :=
  { subDataP with description := some "S", parentTaskId := some "P" }

/-- A resolution whose confidence 0.4 is below the 0.6 threshold
(scenario S2). -/
def lowResult : DispatchResult :=
  { resultData := some "meh", confidenceScore := JNum.num (2 / 5),
    actualImpact := JNum.num 3, executionTime := JNum.num 100 }

/-- A well-formed successful Dispatcher resolution. -/
def goodResult : DispatchResult :=
  { resultData := some "ok", confidenceScore := JNum.num (9 / 10),
    actualImpact := JNum.num 5, executionTime := JNum.num 100 }

/-- Strengthened inductive invariant carried through `Reach _ true`:
unique agent and task ids, no sentinel-named agent, the busy/processing
linkage, existence and uniqueness of the agent behind each processing
task, well-formedness of the in-flight list, and the sub-task shape
facts (every recorded parent has a non-empty `subtasks` list, and a
task with initialized sub-tasks is never `processing`). -/
def GoodConfig (c : Config) : Prop :=
  (c.1.agents.map Agent.id).Nodup ∧
  (c.1.taskQueue.map Task.id).Nodup ∧
  (∀ a ∈ c.1.agents, a.id ≠ "AGGREGATOR_SYSTEM") ∧
  AgentTaskInv c.1 ∧
  (∀ t ∈ c.1.taskQueue, t.status = TaskStatus.processing →
    ∃ a ∈ c.1.agents, t.assignedTo = some a.id) ∧
  (∀ t₁ ∈ c.1.taskQueue, ∀ t₂ ∈ c.1.taskQueue,
    t₁.status = TaskStatus.processing → t₂.status = TaskStatus.processing →
    t₁.assignedTo = t₂.assignedTo → t₁.id = t₂.id) ∧
  (∀ p ∈ c.2, ∃ t ∈ c.1.taskQueue,
    t.id = p.1 ∧ t.status = TaskStatus.processing ∧ t.assignedTo = some p.2) ∧
  (c.2.map Prod.fst).Nodup ∧
  (∀ t ∈ c.1.taskQueue, ∀ pid, t.parentTaskId = some pid →
    ∃ u ∈ c.1.taskQueue, u.id = pid ∧ u.subtasks ≠ []) ∧
  (∀ u ∈ c.1.taskQueue, u.subtasks ≠ [] → u.status ≠ TaskStatus.processing)

/-! ## Claim theorems

Helper lemmas come first, then the symbolic claim theorems, then (in a
section that restores the kernel-reducibility of the `Rat` arithmetic
operations, which Batteries marks `@[irreducible]`) the theorems that
evaluate the engine on concrete states.  The kernel reduces `Rat`
arithmetic fine (its `Nat` primitives are GMP-accelerated); the
attribute is scoped to that section so that symbolic proofs keep the
standard reducibility. -/

/-- Half-up rounding of a nonnegative rational is nonnegative. -/
theorem roundDec_nonneg (d : ℕ) (q : ℚ) (h : 0 ≤ q) : 0 ≤ roundDec d q := by
  unfold roundDec
  apply div_nonneg _ (by positivity)
  have : (0 : ℚ) ≤ q * 10 ^ d + 1 / 2 := by positivity
  exact_mod_cast Int.floor_nonneg.mpr this

/-- Half-up rounding of a rational at most one is at most one. -/
theorem roundDec_le_one (d : ℕ) (q : ℚ) (h : q ≤ 1) : roundDec d q ≤ 1 := by
  unfold roundDec
  rw [div_le_one (by positivity : (0 : ℚ) < 10 ^ d)]
  have hlt : q * 10 ^ d + 1 / 2 < ((10 ^ d : ℤ) : ℚ) + 1 := by
    push_cast
    nlinarith [pow_pos (show (0:ℚ) < 10 by norm_num) d]
  have := Int.floor_lt.mpr (by exact_mod_cast hlt : q * 10 ^ d + 1 / 2 < ((10 ^ d + 1 : ℤ) : ℚ))
  exact_mod_cast Int.lt_add_one_iff.mp this

/-- A value delivered by `alookup` is the second component of an
entry of the map. -/
theorem alookup_mem {α : Type} (m : List (String × α)) (k : String) (v : α)
    (h : alookup m k = some v) : ∃ p ∈ m, p.2 = v := by
  unfold alookup at h
  cases hf : m.find? (fun p => p.1 == k) with
  | none => rw [hf] at h; simp at h
  | some p =>
    rw [hf] at h
    simp only [Option.map_some', Option.some.injEq] at h
    exact ⟨p, List.mem_of_find?_eq_some hf, h⟩

/-- The fold inside `argmaxBy` picks the accumulator or a list
element. -/
theorem foldl_argmax_mem {α : Type} (f : α → ℚ) :
    ∀ (xs : List α) (acc : α),
      xs.foldl (fun a y => if f a < f y then y else a) acc ∈ acc :: xs := by
  intro xs
  induction xs with
  | nil => intro acc; simp
  | cons y ys ih =>
    intro acc
    have h := ih (if f acc < f y then y else acc)
    rcases List.mem_cons.mp h with h1 | h1
    · rw [List.foldl_cons, h1]
      by_cases hc : f acc < f y <;> simp [hc]
    · simp [List.foldl_cons]
      right
      right
      exact h1

/-- `argmaxBy` returns a member of the list. -/
theorem argmaxBy_mem {α : Type} (f : α → ℚ) (l : List α) (x : α)
    (h : argmaxBy f l = some x) : x ∈ l := by
  cases l with
  | nil => simp [argmaxBy] at h
  | cons y ys =>
    simp only [argmaxBy, Option.some.injEq] at h
    have := foldl_argmax_mem f ys y
    rw [h] at this
    exact this

/-- Any agent returned by `evaluateAssignment` is a registered agent
that is idle and not excluded. -/
theorem evaluateAssignment_spec (s : EngineState) (t : Task) (ex : List String)
    (aid : String) (p : ℚ) (h : evaluateAssignment s t ex = some (aid, p)) :
    ∃ a ∈ s.agents, a.id = aid ∧ a.status = AgentStatus.idle ∧ a.id ∉ ex := by
  simp only [evaluateAssignment] at h
  cases harg : argmaxBy (fun a => predictSuccess s.taskQueue a t)
      (s.agents.filter (fun a => a.status == AgentStatus.idle && !(ex.contains a.id))) with
  | none => rw [harg] at h; simp at h
  | some a =>
    rw [harg] at h
    simp only [Option.map_some', Option.some.injEq, Prod.mk.injEq] at h
    have hmem := argmaxBy_mem _ _ _ harg
    have hfilter := List.mem_filter.mp hmem
    refine ⟨a, hfilter.1, h.1, ?_, ?_⟩
    · have := hfilter.2
      simp only [Bool.and_eq_true, beq_iff_eq] at this
      exact this.1
    · have := hfilter.2
      simp only [Bool.and_eq_true, Bool.not_eq_true'] at this
      intro hmem2
      have hc := this.2
      rw [List.contains_eq_any_beq] at hc
      have : ex.contains a.id = true := by
        rw [List.contains_eq_any_beq]
        exact List.any_eq_true.mpr ⟨a.id, hmem2, by simp⟩
      rw [List.contains_eq_any_beq] at this
      simp [this] at hc

/-- Membership in the re-sorted queue is membership in the original
queue. -/
theorem mem_sortQueue {t : Task} {q : List Task} : t ∈ sortQueue q ↔ t ∈ q := by
  simp [sortQueue, List.mem_insertionSort]

/-- A list whose mapped images are all `some` has those images as its
`filterMap`. -/
theorem filterMap_eq_of_map_eq_map_some {α β : Type} (f : α → Option β) :
    ∀ (l : List α) (os : List β), l.map f = os.map some → l.filterMap f = os := by
  intro l
  induction l with
  | nil =>
    intro os h
    cases os with
    | nil => rfl
    | cons o os2 => simp at h
  | cons x xs ih =>
    intro os h
    cases os with
    | nil => simp at h
    | cons o os2 =>
      simp only [List.map_cons, List.cons.injEq] at h
      rw [List.filterMap_cons, h.1, ih os2 h.2]

/-- Every element of a joined list occurs inside the joined string. -/
theorem joinSep_contains (sep : String) :
    ∀ (l : List String) (x : String), x ∈ l →
      ∃ pre post, joinSep sep l = pre ++ x ++ post := by
  intro l
  induction l with
  | nil => intro x hx; simp at hx
  | cons y ys ih =>
    intro x hx
    rcases List.mem_cons.mp hx with rfl | hx2
    · cases ys with
      | nil => exact ⟨"", "", by simp [joinSep]⟩
      | cons z zs =>
        refine ⟨"", sep ++ joinSep sep (z :: zs), ?_⟩
        simp only [joinSep]
        rw [String.append_assoc]
        rfl
    · cases ys with
      | nil => simp at hx2
      | cons z zs =>
        obtain ⟨pre, post, hpp⟩ := ih x hx2
        refine ⟨y ++ sep ++ pre, post, ?_⟩
        simp only [joinSep, hpp]
        simp only [String.append_assoc]

/-- Searching for an id after an id-preserving keyed update finds the
updated entry. -/
theorem find?_updateTask (l : List Task) (tid : String) (f : Task → Task)
    (hf : ∀ t, (f t).id = t.id) :
    (l.map (fun t => if t.id = tid then f t else t)).find? (fun t => t.id == tid) =
      (l.find? (fun t => t.id == tid)).map f := by
  induction l with
  | nil => rfl
  | cons x xs ih =>
    by_cases hx : x.id = tid
    · rw [List.map_cons, if_pos hx, List.find?_cons_of_pos _ (by simp [hf, hx]),
        List.find?_cons_of_pos _ (by simp [hx])]
      rfl
    · rw [List.map_cons, if_neg hx, List.find?_cons_of_neg _ (by simp [hx]),
        List.find?_cons_of_neg _ (by simp [hx]), ih]

/-- Learning updates do not touch the task queue. -/
theorem updateAgentMetadata_taskQueue (s : EngineState) (aid dom : String)
    (su : Bool) (im : ℚ) :
    (updateAgentMetadata s aid dom su im).taskQueue = s.taskQueue := rfl

/-- Learning updates do not touch the stored outputs. -/
theorem updateAgentMetadata_taskOutputs (s : EngineState) (aid dom : String)
    (su : Bool) (im : ℚ) :
    (updateAgentMetadata s aid dom su im).taskOutputs = s.taskOutputs := rfl

/-- Performance updates do not touch the task queue. -/
theorem updateAgentPerformance_taskQueue (s : EngineState) (aid : String)
    (su : Bool) (im : ℚ) (dom : String) :
    (updateAgentPerformance s aid su im dom).taskQueue = s.taskQueue := by
  unfold updateAgentPerformance
  by_cases h : dom ≠ "" <;> simp [h, updateAgentMetadata_taskQueue]

/-- Performance updates do not touch the stored outputs. -/
theorem updateAgentPerformance_taskOutputs (s : EngineState) (aid : String)
    (su : Bool) (im : ℚ) (dom : String) :
    (updateAgentPerformance s aid su im dom).taskOutputs = s.taskOutputs := by
  unfold updateAgentPerformance
  by_cases h : dom ≠ "" <;> simp [h, updateAgentMetadata_taskOutputs]

/-- One evaluation step of `logOutput` for a task without a parent:
the stored record and the completion of the task, with the agent-side
effects leaving queue and outputs alone. -/
theorem logOutput_no_parent (fuel : ℕ) (s : EngineState) (tid aid : String)
    (out : DispatchResult) (P : Task)
    (hfind : s.taskQueue.find? (fun t => t.id == tid) = some P)
    (hpar : P.parentTaskId = none) :
    (logOutput fuel s tid aid out).taskQueue =
      s.taskQueue.map (fun t => if t.id = tid then
        { t with status := TaskStatus.completed } else t) ∧
    (logOutput fuel s tid aid out).taskOutputs =
      { taskId := tid, agentId := aid, resultData := out.resultData,
        confidenceScore := out.confidenceScore,
        predictedImpact := P.predictedImpact,
        actualImpact := out.actualImpact.jOrZero,
        executionTime := out.executionTime } :: s.taskOutputs := by
  have hgo : logOutput fuel s tid aid out = logOutputGo (match fuel with
      | 0 => fun s _ _ _ => s
      | fuel2 + 1 => logOutput fuel2) s tid aid out := by
    cases fuel <;> rfl
  rw [hgo]
  simp only [logOutputGo]
  rw [hfind]
  simp only [hpar]
  constructor
  · split
    · rw [updateAgentPerformance_taskQueue]
      rfl
    · rfl
  · split
    · rw [updateAgentPerformance_taskOutputs]
      rfl
    · rfl

/-- Bounds for the skill-to-complexity component: `1` when the skill
covers the complexity, `ns/nc` otherwise. -/
theorem skillFitBounds (ns nc : ℚ) (h1 : 0 ≤ ns) (h2 : 0 < nc) :
    0 ≤ (if nc ≤ ns then (1 : ℚ) else ns / nc) ∧
    (if nc ≤ ns then (1 : ℚ) else ns / nc) ≤ 1 := by
  split
  · norm_num
  · rename_i h
    exact ⟨div_nonneg h1 h2.le, le_of_lt ((div_lt_one h2).mpr (not_le.mp h))⟩

/-- Interval bounds transfer through a JS `||` default. -/
theorem qOrBounds (x d lo hi : ℚ) (hx1 : lo ≤ x) (hx2 : x ≤ hi)
    (hd1 : lo ≤ d) (hd2 : d ≤ hi) : lo ≤ qOr x d ∧ qOr x d ≤ hi := by
  unfold qOr
  split
  · exact ⟨hd1, hd2⟩
  · exact ⟨hx1, hx2⟩

/-- A 0/1 indicator lies in the unit interval. -/
theorem iteZeroOneBounds (c : Prop) [Decidable c] :
    (0 : ℚ) ≤ (if c then 1 else 0) ∧ (if c then (1 : ℚ) else 0) ≤ 1 := by
  split <;> norm_num

/-- Bounds for a 40/30/20/10-weighted sum of components that each lie
in the unit interval. -/
theorem weightedScoreBounds (dm ss sr rel : ℚ)
    (h1 : 0 ≤ dm) (h2 : dm ≤ 1) (h3 : 0 ≤ ss) (h4 : ss ≤ 1)
    (h5 : 0 ≤ sr) (h6 : sr ≤ 1) (h7 : 0 ≤ rel) (h8 : rel ≤ 1) :
    0 ≤ (4 / 10) * dm + (3 / 10) * ss + (2 / 10) * sr + (1 / 10) * rel ∧
    (4 / 10) * dm + (3 / 10) * ss + (2 / 10) * sr + (1 / 10) * rel ≤ 1 := by
  constructor <;> nlinarith

/-- C4: a dispatch that resolves with `confidenceScore < 0.6` takes the
reassignment path: the assigned agent returns to `idle` and is appended
to the task's `failedAgents`, the retry count is incremented, the task
returns to `pending` with `assignedTo` cleared when the new retry count
is below 3 and becomes `failed` otherwise; and `evaluateAssignment`
never selects an agent from the exclusion list it is given (the
scheduler passes `task.failedAgents`). -/
theorem c4_low_confidence_reassignment (s : EngineState) (tid aid : String)
    (r : DispatchResult) (q : ℚ) (u : Task) (a : Agent)
    (hconf : r.confidenceScore = JNum.num q) (hq : q < 6 / 10)
    (hu : u ∈ s.taskQueue) (huid : u.id = tid)
    (ha : a ∈ s.agents) (haid : a.id = aid) :
    ({ a with status := AgentStatus.idle } ∈
      (applyDispatchOutcome s tid aid (DispatchOutcome.resolved r)).agents) ∧
    ((if u.retryCount + 1 < 3 then
        { u with retryCount := u.retryCount + 1,
                 failedAgents := u.failedAgents ++ [aid],
                 status := TaskStatus.pending, assignedTo := none }
      else
        { u with retryCount := u.retryCount + 1,
                 failedAgents := u.failedAgents ++ [aid],
                 status := TaskStatus.failed }) ∈
      (applyDispatchOutcome s tid aid (DispatchOutcome.resolved r)).taskQueue) ∧
    (∀ (t2 : Task) (ex : List String) (aid2 : String) (p2 : ℚ),
      evaluateAssignment (applyDispatchOutcome s tid aid (DispatchOutcome.resolved r)) t2 ex
        = some (aid2, p2) → aid2 ∉ ex) := by
  have hlt : r.confidenceScore.jlt (6 / 10) = true := by
    rw [hconf]; simpa [JNum.jlt] using hq
  have happ : applyDispatchOutcome s tid aid (DispatchOutcome.resolved r) =
      handleTaskReassignment s tid aid := by
    simp [applyDispatchOutcome, hlt]
  rw [happ]
  refine ⟨?_, ?_, ?_⟩
  · have : ({ a with status := AgentStatus.idle } : Agent) =
        (fun x => if x.id = aid then { x with status := AgentStatus.idle } else x) a := by
      simp [haid]
    rw [this]
    exact List.mem_map_of_mem _ ha
  · simp only [handleTaskReassignment, updateTask, setAgentStatus, List.mem_map]
    refine ⟨u, hu, ?_⟩
    by_cases hrc : u.retryCount + 1 < 3 <;> simp [huid, hrc]
  · intro t2 ex aid2 p2 hev
    obtain ⟨a2, _, haid2, _, hnotex⟩ := evaluateAssignment_spec _ _ _ _ _ hev
    rw [haid2] at hnotex
    exact hnotex

/-- Witness for C4: the dispatch of `procTask` on agent `A` resolves
with confidence 0.4; the task is requeued `pending` with `A` recorded
in `failedAgents`. -/
theorem c4_witness :
    ((2 : ℚ) / 5 < 6 / 10) ∧
    (({ agABusy with status := AgentStatus.idle } ∈
      (applyDispatchOutcome procState "T" "A" (DispatchOutcome.resolved lowResult)).agents) ∧
    ((if procTask.retryCount + 1 < 3 then
        { procTask with retryCount := procTask.retryCount + 1,
                        failedAgents := procTask.failedAgents ++ ["A"],
                        status := TaskStatus.pending, assignedTo := none }
      else
        { procTask with retryCount := procTask.retryCount + 1,
                        failedAgents := procTask.failedAgents ++ ["A"],
                        status := TaskStatus.failed }) ∈
      (applyDispatchOutcome procState "T" "A" (DispatchOutcome.resolved lowResult)).taskQueue) ∧
    (∀ (t2 : Task) (ex : List String) (aid2 : String) (p2 : ℚ),
      evaluateAssignment (applyDispatchOutcome procState "T" "A" (DispatchOutcome.resolved lowResult)) t2 ex
        = some (aid2, p2) → aid2 ∉ ex)) :=
  ⟨by norm_num,
   c4_low_confidence_reassignment procState "T" "A" lowResult (2 / 5) procTask agABusy
     rfl (by norm_num) (List.mem_cons_self _ _) rfl (List.mem_cons_self _ _) rfl⟩

/-- C6 (amended): applying the SPLIT remediation to a task of
complexity `c` and priority `p ≠ 0` marks it `waiting_for_subtasks`
with exactly two recorded sub-tasks, and creates two pending sub-tasks
in the same domain with complexities `⌈c/2⌉` and `⌊c/2⌋`, no
dependencies, and priorities `p+1` (*not* capped at 10) and `p`. -/
theorem c6_split_creates_two_half_complexity_children (s : EngineState) (t : Task)
    (sid1 sid2 : String) (p : ℚ)
    (ht : t ∈ s.taskQueue) (hsub : t.subtasks = [])
    (hp : t.priority = some p) (hp0 : p ≠ 0) :
    ({ t with status := TaskStatus.waitingForSubtasks, subtasks := [sid1, sid2] } ∈
      (handleTaskSplitting s t sid1 sid2).taskQueue) ∧
    (∃ c1 ∈ (handleTaskSplitting s t sid1 sid2).taskQueue,
      c1.id = sid1 ∧ c1.status = TaskStatus.pending ∧
      c1.domainLabel = t.domainLabel ∧
      c1.complexityScore = ((⌈t.complexityScore / 2⌉ : ℤ) : ℚ) ∧
      c1.priority = some (p + 1) ∧ c1.dependencies = [] ∧
      c1.parentTaskId = some t.id) ∧
    (∃ c2 ∈ (handleTaskSplitting s t sid1 sid2).taskQueue,
      c2.id = sid2 ∧ c2.status = TaskStatus.pending ∧
      c2.domainLabel = t.domainLabel ∧
      c2.complexityScore = ((⌊t.complexityScore / 2⌋ : ℤ) : ℚ) ∧
      c2.priority = some p ∧ c2.dependencies = [] ∧
      c2.parentTaskId = some t.id) := by
  have hfind : ∃ u, s.taskQueue.find? (fun x => x.id == t.id) = some u := by
    cases hf : s.taskQueue.find? (fun x => x.id == t.id) with
    | some u => exact ⟨u, rfl⟩
    | none =>
      have := List.find?_eq_none.mp hf t ht
      simp at this
  obtain ⟨u, hu⟩ := hfind
  have hqueue : ∀ (specs : List (SubtaskSpec × String)),
      (decomposeTask s t.id specs).taskQueue =
        sortQueue ((updateTask s t.id (fun p =>
          { p with status := TaskStatus.waitingForSubtasks,
                   subtasks := p.subtasks ++ specs.map Prod.snd })).taskQueue ++
          specs.map (fun p => mkSubtask s.agents t.id p.1 p.2)) := by
    intro specs
    unfold decomposeTask
    rw [hu]
  unfold handleTaskSplitting
  rw [hqueue]
  refine ⟨?_, ?_, ?_⟩
  · rw [mem_sortQueue, List.mem_append]
    left
    simp only [updateTask, List.mem_map]
    refine ⟨t, ht, ?_⟩
    simp [hsub]
  · refine ⟨_, mem_sortQueue.mpr
      (List.mem_append_right _ (List.mem_cons_self _ _)), ?_⟩
    simp [mkSubtask, priOr1, optQOr, hp, hp0]
  · refine ⟨_, mem_sortQueue.mpr
      (List.mem_append_right _ (List.mem_cons_of_mem _ (List.mem_cons_self _ _))), ?_⟩
    simp [mkSubtask, hp]

/-- Witness for C6 (amended) at the complexity-9, priority-10 task of
scenario S3: children of complexities 5 and 4 with priorities 11
and 10. -/
theorem c6_witness :
    ({ bigTask with status := TaskStatus.waitingForSubtasks, subtasks := ["c1", "c2"] } ∈
      (handleTaskSplitting bigState bigTask "c1" "c2").taskQueue) ∧
    (∃ c1 ∈ (handleTaskSplitting bigState bigTask "c1" "c2").taskQueue,
      c1.id = "c1" ∧ c1.status = TaskStatus.pending ∧
      c1.domainLabel = bigTask.domainLabel ∧
      c1.complexityScore = ((⌈bigTask.complexityScore / 2⌉ : ℤ) : ℚ) ∧
      c1.priority = some ((10 : ℚ) + 1) ∧ c1.dependencies = [] ∧
      c1.parentTaskId = some bigTask.id) ∧
    (∃ c2 ∈ (handleTaskSplitting bigState bigTask "c1" "c2").taskQueue,
      c2.id = "c2" ∧ c2.status = TaskStatus.pending ∧
      c2.domainLabel = bigTask.domainLabel ∧
      c2.complexityScore = ((⌊bigTask.complexityScore / 2⌋ : ℤ) : ℚ) ∧
      c2.priority = some (10 : ℚ) ∧ c2.dependencies = [] ∧
      c2.parentTaskId = some bigTask.id) :=
  c6_split_creates_two_half_complexity_children bigState bigTask "c1" "c2" 10
    (List.mem_cons_self _ _) rfl rfl (by norm_num)

/-- C7 (amended): for validator-conformant inputs (success rate in
`[0,1]`, nonnegative completed-task count, complexity at least 1,
nonnegative skill values, priority in `(0,10]` when present) the
compatibility score equals the claimed 40/30/20/10 weighted formula
*with the source's JS-truthiness defaults* (`successRate || 0.5`,
`skillScores[domain] || 0.7·mean`, `priority || 1`), rounded to four
decimals, and it lies in `[0,1]`. -/
theorem c7_compatibility_score_amended (a : Agent) (t : Task)
    (hsr0 : 0 ≤ a.performanceData.successRate)
    (hsr1 : a.performanceData.successRate ≤ 1)
    (htc : 0 ≤ a.performanceData.tasksCompleted)
    (hc : 1 ≤ t.complexityScore)
    (hsk : ∀ p ∈ a.skillScores, 0 ≤ p.2)
    (hpr : ∀ q, t.priority = some q → 0 ≤ q ∧ q ≤ 10) :
    calculateCompatibility a t = roundDec 4 (compatAmendedFormula a t) ∧
    0 ≤ calculateCompatibility a t ∧ calculateCompatibility a t ≤ 1 := by
  have hgetD : 0 ≤ (alookup a.skillScores t.domainLabel).getD 0 := by
    cases hl : alookup a.skillScores t.domainLabel with
    | none => simp
    | some v =>
      obtain ⟨p, hp, hpv⟩ := alookup_mem _ _ _ hl
      simpa [← hpv] using hsk p hp
  have hmean : (0 : ℚ) ≤ (a.skillScores.map Prod.snd).sum /
      (if (a.skillScores.map Prod.snd).length = 0 then 1
       else ((a.skillScores.map Prod.snd).length : ℚ)) := by
    apply div_nonneg
    · apply List.sum_nonneg
      intro x hx
      obtain ⟨p, hp, rfl⟩ := List.mem_map.mp hx
      exact hsk p hp
    · split
      · norm_num
      · positivity
  have hqOrSkill : (0 : ℚ) ≤ qOr ((alookup a.skillScores t.domainLabel).getD 0)
      ((a.skillScores.map Prod.snd).sum /
        (if (a.skillScores.map Prod.snd).length = 0 then 1
         else ((a.skillScores.map Prod.snd).length : ℚ)) * (7 / 10)) := by
    unfold qOr
    split
    · exact mul_nonneg hmean (by norm_num)
    · exact hgetD
  have hncpos : (0 : ℚ) < t.complexityScore / 10 := by
    apply div_pos (by linarith) (by norm_num)
  have hpw0 : (0 : ℚ) ≤ priOr1 t.priority := by
    cases hq : t.priority with
    | none => simp [priOr1, optQOr]
    | some q =>
      obtain ⟨h1, h2⟩ := hpr q hq
      by_cases h0 : q = 0
      · simp [priOr1, optQOr, h0]
      · simpa [priOr1, optQOr, h0] using h1
  have hpw1 : priOr1 t.priority ≤ 10 := by
    cases hq : t.priority with
    | none => simp [priOr1, optQOr]
    | some q =>
      obtain ⟨h1, h2⟩ := hpr q hq
      by_cases h0 : q = 0
      · simp [priOr1, optQOr, h0]
      · simpa [priOr1, optQOr, h0] using h2
  have hef0 : (0 : ℚ) ≤ min (a.performanceData.tasksCompleted / 50) 1 :=
    le_min (by positivity) (by norm_num)
  have hef1 : min (a.performanceData.tasksCompleted / 50) 1 ≤ 1 := min_le_right _ _
  have heq : calculateCompatibility a t = roundDec 4 (compatAmendedFormula a t) := by
    simp only [calculateCompatibility, compatAmendedFormula]
    congr 1
    ring
  have hbounds : 0 ≤ compatAmendedFormula a t ∧ compatAmendedFormula a t ≤ 1 := by
    simp only [compatAmendedFormula]
    refine weightedScoreBounds _ _ _ _ ?_ ?_ ?_ ?_ ?_ ?_ ?_ ?_
    · exact (iteZeroOneBounds _).1
    · exact (iteZeroOneBounds _).2
    · exact (skillFitBounds _ _ (div_nonneg hqOrSkill (by norm_num)) hncpos).1
    · exact (skillFitBounds _ _ (div_nonneg hqOrSkill (by norm_num)) hncpos).2
    · exact (qOrBounds _ _ 0 1 hsr0 hsr1 (by norm_num) (by norm_num)).1
    · exact (qOrBounds _ _ 0 1 hsr0 hsr1 (by norm_num) (by norm_num)).2
    · linarith
    · linarith
  refine ⟨heq, ?_, ?_⟩
  · rw [heq]; exact roundDec_nonneg _ _ hbounds.1
  · rw [heq]; exact roundDec_le_one _ _ hbounds.2

/-- Witness for C7 (amended) at the fresh `logic` agent and a plain
task. -/
theorem c7_witness :
    calculateCompatibility agA compatTask = roundDec 4 (compatAmendedFormula agA compatTask) ∧
    0 ≤ calculateCompatibility agA compatTask ∧ calculateCompatibility agA compatTask ≤ 1 :=
  c7_compatibility_score_amended agA compatTask (le_refl 0) (by norm_num [agA, zeroPerf]) (le_refl 0)
    (by norm_num [mkTask, compatTask]) (by decide)
    (by intro q hq; simp [compatTask, mkTask] at hq; simp [← hq]; norm_num)

/-- The first element accepted by `find?` on a list sorted by a
measure dominates every accepted element. -/
theorem find?_first_of_sorted {α : Type} (f : α → ℚ) (P : α → Bool) :
    ∀ (l : List α), l.Pairwise (fun a b => f b ≤ f a) →
      ∀ t, l.find? P = some t → ∀ u ∈ l, P u = true → f u ≤ f t := by
  intro l
  induction l with
  | nil => intro _ t ht; simp at ht
  | cons x xs ih =>
    intro hp t ht u hu hPu
    obtain ⟨hx, hxs⟩ := List.pairwise_cons.mp hp
    by_cases hPx : P x = true
    · rw [List.find?_cons_of_pos _ hPx] at ht
      obtain rfl : x = t := by simpa using ht
      rcases List.mem_cons.mp hu with rfl | hu2
      · exact le_refl _
      · exact hx u hu2
    · rw [List.find?_cons_of_neg _ (by simpa using hPx)] at ht
      rcases List.mem_cons.mp hu with rfl | hu2
      · rw [hPu] at hPx
        exact absurd rfl hPx
      · exact ih hxs t ht u hu2 hPu

/-- C8 (amended): the scheduler selects the *first* ready task in queue
order; whenever the queue is sorted by non-increasing effective
priority (the order `submitTask` and `decomposeTask` maintain, but
which the COLLABORATE priority bump can break), the selected task is a
ready task of maximal priority among all simultaneously ready tasks. -/
theorem c8_max_priority_when_queue_sorted (s : EngineState) (t : Task)
    (hsorted : s.taskQueue.Pairwise
      (fun a b => priOr1 b.priority ≤ priOr1 a.priority))
    (hfind : findNextTask s = some t) :
    t ∈ s.taskQueue ∧ isReady s.taskQueue t = true ∧
    ∀ u ∈ s.taskQueue, isReady s.taskQueue u = true →
      priOr1 u.priority ≤ priOr1 t.priority := by
  refine ⟨List.mem_of_find?_eq_some hfind, List.find?_some hfind, ?_⟩
  exact fun u hu hPu =>
    find?_first_of_sorted (fun x => priOr1 x.priority) (isReady s.taskQueue)
      s.taskQueue hsorted t hfind u hu hPu

/-- C5 (amended): when the last sub-task of a (top-level,
not-yet-completed) parent `P` completes so that all of `P`'s sub-tasks
are `completed` with stored outputs `os`, the triggered aggregation
transitions `P` to `completed` and stores under `P`'s id a record
carrying the sentinel agent id `AGGREGATOR_SYSTEM` whose
`confidenceScore` is the children's mean confidence rounded to two
decimals, whose `actualImpact` is the children's mean actual impact
rounded to one decimal, whose `executionTime` is the sum over children,
whose `predictedImpact` is the *parent's own* submit-time prediction
(not the children's mean), and whose `resultData` contains every
child's `resultData`. -/
theorem c5_aggregation_amended (s : EngineState) (pid : String) (P : Task)
    (cs : List Task) (os : List Output) (fuel : ℕ)
    (hfindP : s.taskQueue.find? (fun t => t.id == pid) = some P)
    (hPst : P.status ≠ TaskStatus.completed)
    (hPtop : P.parentTaskId = none)
    (hcs : s.taskQueue.filter (fun t => t.parentTaskId == some pid) = cs)
    (hne : cs ≠ [])
    (hdone : ∀ c ∈ cs, c.status = TaskStatus.completed)
    (hos : cs.map (fun c => s.taskOutputs.find? (fun o => o.taskId == c.id)) = os.map some) :
    ((checkAndAggregateParent (fuel + 1) s pid).taskQueue.find?
        (fun t => t.id == pid)).map Task.status = some TaskStatus.completed ∧
    ∃ rec, (checkAndAggregateParent (fuel + 1) s pid).taskOutputs.find?
        (fun o => o.taskId == pid) = some rec ∧
      rec.agentId = "AGGREGATOR_SYSTEM" ∧
      rec.confidenceScore = jRound 2
        ((os.foldl (fun acc o => acc.jadd o.confidenceScore) (JNum.num 0)).jdiv (os.length : ℚ)) ∧
      rec.actualImpact = roundDec 1 ((os.map (fun o => qOr o.actualImpact 0)).sum / (os.length : ℚ)) ∧
      rec.executionTime = JNum.num ((os.map (fun o => o.executionTime.jOrZero)).sum) ∧
      rec.predictedImpact = P.predictedImpact ∧
      (∀ o ∈ os, ∃ pre post, rec.resultData = some (pre ++ jstr o.resultData ++ post)) := by
  have hall : cs.all (fun t => t.status == TaskStatus.completed) = true := by
    rw [List.all_eq_true]
    intro t ht
    simp [hdone t ht]
  have hfm : cs.filterMap (fun t => s.taskOutputs.find? (fun o => o.taskId == t.id)) = os :=
    filterMap_eq_of_map_eq_map_some _ _ _ hos
  have haggEq : aggregationResult s pid = some (aggregateOf s pid os) := by
    simp only [aggregationResult, hfindP]
    simp only [if_neg hPst, hcs]
    rw [if_pos ⟨hne, hall⟩, hfm]
  have hcontain : ∀ o ∈ os, ∃ pre post,
      (aggregateOf s pid os).resultData = some (pre ++ jstr o.resultData ++ post) := by
    intro o ho
    have hcl : childLine o ∈ os.map childLine := List.mem_map_of_mem _ ho
    obtain ⟨pre1, post1, hpp⟩ := joinSep_contains _ _ _ hcl
    have hbase : joinSep "\n---\n" (os.map childLine) =
        (pre1 ++ ("[Agent " ++ o.agentId ++ "]: ")) ++ jstr o.resultData ++ post1 := by
      rw [hpp]
      simp only [childLine, String.append_assoc]
    have hsplit : ∀ z : String,
        joinSep "\n---\n" (os.map childLine) ++ z =
          (pre1 ++ ("[Agent " ++ o.agentId ++ "]: ")) ++ jstr o.resultData ++ (post1 ++ z) := by
      intro z
      rw [hpp]
      simp only [childLine, String.append_assoc]
    simp only [aggregateOf, aggDataOf]
    cases hctx : alookup s.collaborationSpace pid with
    | none =>
      refine ⟨pre1 ++ ("[Agent " ++ o.agentId ++ "]: "), post1, ?_⟩
      simp only [hctx, hbase]
    | some ctx =>
      by_cases hshared : ctx.sharedResults ≠ []
      · refine ⟨pre1 ++ ("[Agent " ++ o.agentId ++ "]: "), post1 ++ collabBlock ctx, ?_⟩
        simp only [hctx, if_pos hshared, hsplit]
      · refine ⟨pre1 ++ ("[Agent " ++ o.agentId ++ "]: "), post1, ?_⟩
        simp only [hctx, if_neg hshared, hbase]
  have hstep : checkAndAggregateParent (fuel + 1) s pid =
      logOutput fuel s pid "AGGREGATOR_SYSTEM" (aggregateOf s pid os) := by
    simp only [checkAndAggregateParent, haggEq]
  obtain ⟨hq, ho⟩ :=
    logOutput_no_parent fuel s pid "AGGREGATOR_SYSTEM" (aggregateOf s pid os) P hfindP hPtop
  constructor
  · rw [hstep, hq, find?_updateTask s.taskQueue pid
      (fun t => { t with status := TaskStatus.completed }) (fun t => rfl), hfindP]
    rfl
  · refine ⟨{ taskId := pid, agentId := "AGGREGATOR_SYSTEM",
              resultData := (aggregateOf s pid os).resultData,
              confidenceScore := (aggregateOf s pid os).confidenceScore,
              predictedImpact := P.predictedImpact,
              actualImpact := (aggregateOf s pid os).actualImpact.jOrZero,
              executionTime := (aggregateOf s pid os).executionTime },
      ?_, rfl, rfl, rfl, rfl, rfl, hcontain⟩
    rw [hstep, ho]
    exact List.find?_cons_of_pos _ (by simp)

/-! ## Claim C9: the busy/processing linkage

The helper development below proves the strengthened inductive
invariant `GoodConfig` for every configuration reachable under the
submission schema of the specification (`Reach _ true`), from which the
claimed agent/task linkage follows; the counterexample for the
unrestricted surface (`Reach _ false`) lives in the kernel-computation
section. -/

/-- Mapping by a pointwise-projection-preserving function keeps the
projected list. -/
theorem map_proj_eq {α β : Type} (l : List α) (f : α → α) (p : α → β)
    (h : ∀ a ∈ l, p (f a) = p a) : (l.map f).map p = l.map p := by
  rw [List.map_map]
  exact List.map_congr_left h

/-- The re-sorted queue is a permutation of the original queue. -/
theorem sortQueue_perm (q : List Task) : (sortQueue q).Perm q :=
  List.perm_insertionSort _ q

/-- On a queue with unique ids, `find?` by a member's id returns that
member. -/
theorem find?_id_of_mem {l : List Task} (hnd : (l.map Task.id).Nodup)
    {T : Task} {tid : String} (hT : T ∈ l) (hid : T.id = tid) :
    l.find? (fun u => u.id == tid) = some T := by
  induction l with
  | nil => simp at hT
  | cons x xs ih =>
    rcases List.mem_cons.mp hT with rfl | hT2
    · exact List.find?_cons_of_pos _ (by simp [hid])
    · by_cases hx : x.id = tid
      · have hxT : x = T := by
          apply List.inj_on_of_nodup_map hnd (List.mem_cons_self x xs)
            (List.mem_cons_of_mem x hT2)
          rw [hx, hid]
        rw [List.find?_cons_of_pos _ (by simp [hx]), hxT]
      · rw [List.find?_cons_of_neg _ (by simp [hx])]
        apply ih ?_ hT2
        simp only [List.map_cons] at hnd
        exact hnd.of_cons

/-- The task update is a map over the queue. -/
theorem updateTask_taskQueue (s : EngineState) (tid : String) (f : Task → Task) :
    (updateTask s tid f).taskQueue =
      s.taskQueue.map (fun u => if u.id = tid then f u else u) := rfl

/-- The Meta-Reflection learning update keeps every agent's identity
and status. -/
theorem updateAgentMetadata_agents_map (s : EngineState) (aid dom : String)
    (su : Bool) (im : ℚ) :
    ∃ g : Agent → Agent,
      (updateAgentMetadata s aid dom su im).agents = s.agents.map g ∧
      ∀ a, (g a).id = a.id ∧ (g a).status = a.status := by
  refine ⟨_, rfl, ?_⟩
  intro a
  by_cases h : a.id = aid <;> simp [h]

/-- The global performance rollup with an empty domain keeps every
agent's identity and status. -/
theorem updateAgentPerformance_empty_agents_map (s : EngineState) (aid : String)
    (su : Bool) (im : ℚ) :
    ∃ g : Agent → Agent,
      (updateAgentPerformance s aid su im "").agents = s.agents.map g ∧
      ∀ a, (g a).id = a.id ∧ (g a).status = a.status := by
  unfold updateAgentPerformance
  rw [if_neg (show ¬(("" : String) ≠ "") by simp)]
  refine ⟨_, rfl, ?_⟩
  intro a
  by_cases h : a.id = aid <;> simp [h]

/-- The performance update (with or without a domain-level forward)
keeps every agent's identity and status. -/
theorem updateAgentPerformance_agents_map (s : EngineState) (aid : String)
    (su : Bool) (im : ℚ) (dom : String) :
    ∃ g : Agent → Agent,
      (updateAgentPerformance s aid su im dom).agents = s.agents.map g ∧
      ∀ a, (g a).id = a.id ∧ (g a).status = a.status := by
  by_cases hd : dom = ""
  · rw [hd]
    exact updateAgentPerformance_empty_agents_map s aid su im
  · have key : updateAgentPerformance s aid su im dom =
        updateAgentMetadata (updateAgentPerformance s aid su im "") aid dom su im := by
      conv_lhs => unfold updateAgentPerformance
      rw [if_pos hd]
      conv_rhs => unfold updateAgentPerformance
      rw [if_neg (show ¬(("" : String) ≠ "") by simp)]
    obtain ⟨g1, e1, p1⟩ := updateAgentPerformance_empty_agents_map s aid su im
    obtain ⟨g2, e2, p2⟩ :=
      updateAgentMetadata_agents_map (updateAgentPerformance s aid su im "") aid dom su im
    refine ⟨fun a => g2 (g1 a), ?_, ?_⟩
    · rw [key, e2, e1, List.map_map]
      rfl
    · intro a
      exact ⟨((p2 (g1 a)).1).trans (p1 a).1, ((p2 (g1 a)).2).trans (p1 a).2⟩

/-- The guarded agent-release step (idle the agent carrying the id,
when there is one, and record a learning update) maps each agent to one
with the same id; the carried agent ends idle and every other agent
keeps its status. -/
theorem release_agents_map (s : EngineState) (aid : String) (su : Bool)
    (im : ℚ) (dom : String) :
    ∃ g : Agent → Agent,
      (if s.agents.any (fun a => a.id == aid) then
          updateAgentPerformance (setAgentStatus s aid AgentStatus.idle) aid su im dom
        else s).agents = s.agents.map g ∧
      ∀ a ∈ s.agents, (g a).id = a.id ∧
        (a.id = aid → (g a).status = AgentStatus.idle) ∧
        (a.id ≠ aid → (g a).status = a.status) := by
  by_cases hg : s.agents.any (fun a => a.id == aid) = true
  · rw [if_pos hg]
    obtain ⟨g2, e2, p2⟩ :=
      updateAgentPerformance_agents_map (setAgentStatus s aid AgentStatus.idle) aid su im dom
    refine ⟨fun a => g2 (if a.id = aid then { a with status := AgentStatus.idle } else a),
      ?_, ?_⟩
    · rw [e2]
      show (s.agents.map (fun a =>
          if a.id = aid then { a with status := AgentStatus.idle } else a)).map g2 = _
      rw [List.map_map]
      rfl
    · intro a _
      refine ⟨?_, ?_, ?_⟩
      · show (g2 _).id = a.id
        rw [(p2 _).1]
        by_cases h : a.id = aid
        · simp [h]
        · simp [h]
      · intro h
        show (g2 _).status = _
        rw [(p2 _).2]
        simp [h]
      · intro h
        show (g2 _).status = _
        rw [(p2 _).2]
        simp [h]
  · rw [if_neg hg]
    refine ⟨id, (List.map_id _).symm, ?_⟩
    intro a ha
    refine ⟨rfl, ?_, fun _ => rfl⟩
    intro h
    exfalso
    apply hg
    exact List.any_eq_true.mpr ⟨a, ha, by simp [h]⟩

/-- A positive aggregation decision presupposes at least one recorded
child of the parent. -/
theorem aggregationResult_child {s : EngineState} {pid : String} {r : DispatchResult}
    (h : aggregationResult s pid = some r) :
    ∃ c ∈ s.taskQueue, c.parentTaskId = some pid := by
  unfold aggregationResult at h
  split at h
  · exact absurd h (by simp)
  · split at h
    · exact absurd h (by simp)
    · have h2 : (if (s.taskQueue.filter (fun t => t.parentTaskId == some pid)) ≠ [] ∧
          ((s.taskQueue.filter (fun t => t.parentTaskId == some pid)).all
            (fun t => t.status == TaskStatus.completed)) = true then
          some (aggregateOf s pid
            ((s.taskQueue.filter (fun t => t.parentTaskId == some pid)).filterMap
              (fun t => s.taskOutputs.find? (fun o => o.taskId == t.id))))
        else none) = some r := h
      by_cases hcond : (s.taskQueue.filter (fun t => t.parentTaskId == some pid)) ≠ [] ∧
          ((s.taskQueue.filter (fun t => t.parentTaskId == some pid)).all
            (fun t => t.status == TaskStatus.completed)) = true
      · obtain ⟨c, hc2⟩ := List.exists_mem_of_ne_nil _ hcond.1
        have hmf := List.mem_filter.mp hc2
        exact ⟨c, hmf.1, by simpa using hmf.2⟩
      · rw [if_neg hcond] at h2
        exact absurd h2 (by simp)

/-- A `logOutput` call whose target task is absent only stores the
degenerate output record. -/
theorem logOutputGo_none
    (recur : EngineState → String → String → DispatchResult → EngineState)
    (s : EngineState) (tid aid : String) (out : DispatchResult)
    (hfind : s.taskQueue.find? (fun t => t.id == tid) = none) :
    logOutputGo recur s tid aid out =
      { s with taskOutputs :=
          { taskId := tid, agentId := aid, resultData := out.resultData,
            confidenceScore := out.confidenceScore, predictedImpact := 0,
            actualImpact := out.actualImpact.jOrZero,
            executionTime := out.executionTime } :: s.taskOutputs } := by
  simp only [logOutputGo, hfind]

/-- A `logOutput` call on a found task without a parent is exactly the
core step. -/
theorem logOutputGo_parent_none
    (recur : EngineState → String → String → DispatchResult → EngineState)
    (s : EngineState) (tid aid : String) (out : DispatchResult) (T : Task)
    (hfind : s.taskQueue.find? (fun t => t.id == tid) = some T)
    (hpar : T.parentTaskId = none) :
    logOutputGo recur s tid aid out = logOutputCore s tid aid out T := by
  simp only [logOutputGo, logOutputCore, updateTask, hfind, hpar]

/-- A `logOutput` call on a found task whose parent is not ready to
aggregate is exactly the core step. -/
theorem logOutputGo_parent_skip
    (recur : EngineState → String → String → DispatchResult → EngineState)
    (s : EngineState) (tid aid : String) (out : DispatchResult) (T : Task) (pid : String)
    (hfind : s.taskQueue.find? (fun t => t.id == tid) = some T)
    (hpar : T.parentTaskId = some pid)
    (hagg : aggregationResult (logOutputCore s tid aid out T) pid = none) :
    logOutputGo recur s tid aid out = logOutputCore s tid aid out T := by
  simp only [logOutputCore, updateTask] at hagg
  simp only [logOutputGo, logOutputCore, updateTask, hfind, hpar, hagg]

/-- A `logOutput` call on a found task whose parent is ready to
aggregate is the core step followed by the recursive aggregation log
under the sentinel agent id. -/
theorem logOutputGo_parent_agg
    (recur : EngineState → String → String → DispatchResult → EngineState)
    (s : EngineState) (tid aid : String) (out : DispatchResult) (T : Task)
    (pid : String) (agg : DispatchResult)
    (hfind : s.taskQueue.find? (fun t => t.id == tid) = some T)
    (hpar : T.parentTaskId = some pid)
    (hagg : aggregationResult (logOutputCore s tid aid out T) pid = some agg) :
    logOutputGo recur s tid aid out =
      recur (logOutputCore s tid aid out T) pid "AGGREGATOR_SYSTEM" agg := by
  simp only [logOutputCore, updateTask] at hagg
  simp only [logOutputGo, logOutputCore, updateTask, hfind, hpar, hagg]

/-- The queue effect of `logOutputCore`: complete the tasks carrying
the target id, in place. -/
theorem logOutputCore_taskQueue (s : EngineState) (tid aid : String)
    (out : DispatchResult) (T : Task) :
    (logOutputCore s tid aid out T).taskQueue =
      s.taskQueue.map (fun u =>
        if u.id = tid then { u with status := TaskStatus.completed } else u) := by
  unfold logOutputCore
  split
  · rw [updateAgentPerformance_taskQueue]
    rfl
  · rfl

/-- The agent effect of `logOutputCore`: identities are kept, the
releasing agent ends idle, every other agent keeps its status. -/
theorem logOutputCore_agents_map (s : EngineState) (tid aid : String)
    (out : DispatchResult) (T : Task) :
    ∃ g : Agent → Agent,
      (logOutputCore s tid aid out T).agents = s.agents.map g ∧
      ∀ a ∈ s.agents, (g a).id = a.id ∧
        (a.id = aid → (g a).status = AgentStatus.idle) ∧
        (a.id ≠ aid → (g a).status = a.status) := by
  obtain ⟨g, hgeq, hp⟩ := release_agents_map
    (updateTask { s with taskOutputs :=
        { taskId := tid, agentId := aid, resultData := out.resultData,
          confidenceScore := out.confidenceScore, predictedImpact := T.predictedImpact,
          actualImpact := out.actualImpact.jOrZero,
          executionTime := out.executionTime } :: s.taskOutputs }
      tid (fun u => { u with status := TaskStatus.completed }))
    aid true out.actualImpact.jOrZero T.domainLabel
  exact ⟨g, hgeq, hp⟩

/-- Full effect contract of one `logOutputGo` layer, for an arbitrary
logging agent id, given the contract of the aggregation continuation:
the queue is mapped by a `CompletionOnly` transformation that also
completes every task carrying the target id, and the agents are mapped
so that ids survive, the logging agent ends idle (when the target task
exists) and every other agent keeps its status. -/
theorem logOutputGo_effect
    (recur : EngineState → String → String → DispatchResult → EngineState)
    (hrec : AggEffect recur)
    (s : EngineState) (tid aid : String) (out : DispatchResult)
    (hnd : (s.taskQueue.map Task.id).Nodup)
    (h10 : ∀ u ∈ s.taskQueue, u.subtasks ≠ [] → u.status ≠ TaskStatus.processing)
    (h9 : ∀ t ∈ s.taskQueue, ∀ pid, t.parentTaskId = some pid →
      ∃ u ∈ s.taskQueue, u.id = pid ∧ u.subtasks ≠ [])
    (hagf : ∀ a ∈ s.agents, a.id ≠ "AGGREGATOR_SYSTEM") :
    ∃ f : Task → Task, ∃ g : Agent → Agent,
      (logOutputGo recur s tid aid out).taskQueue = s.taskQueue.map f ∧
      (logOutputGo recur s tid aid out).agents = s.agents.map g ∧
      (∀ t ∈ s.taskQueue, CompletionOnly tid f t) ∧
      (∀ t ∈ s.taskQueue, t.id = tid → (f t).status = TaskStatus.completed) ∧
      (∀ a ∈ s.agents, (g a).id = a.id ∧
        ((∃ T ∈ s.taskQueue, T.id = tid) → a.id = aid → (g a).status = AgentStatus.idle) ∧
        (a.id ≠ aid → (g a).status = a.status)) := by
  cases hfind : s.taskQueue.find? (fun t => t.id == tid) with
  | none =>
    rw [logOutputGo_none recur s tid aid out hfind]
    refine ⟨id, id, by rw [List.map_id], by rw [List.map_id], ?_, ?_, ?_⟩
    · intro t _
      exact ⟨rfl, rfl, rfl, rfl, Or.inl rfl⟩
    · intro t ht htid
      exfalso
      have hno := List.find?_eq_none.mp hfind t ht
      simp [htid] at hno
    · intro a _
      refine ⟨rfl, ?_, fun _ => rfl⟩
      rintro ⟨T, hT, hTid⟩ _
      exfalso
      have hno := List.find?_eq_none.mp hfind T hT
      simp [hTid] at hno
  | some T =>
    have hTmem : T ∈ s.taskQueue := List.mem_of_find?_eq_some hfind
    have hTid : T.id = tid := by simpa using List.find?_some hfind
    have hcq := logOutputCore_taskQueue s tid aid out T
    obtain ⟨gC, hcg, hcp⟩ := logOutputCore_agents_map s tid aid out T
    have hbaseCO : ∀ t ∈ s.taskQueue, CompletionOnly tid
        (fun u => if u.id = tid then { u with status := TaskStatus.completed } else u) t := by
      intro t ht
      by_cases h : t.id = tid
      · exact ⟨by simp [h], by simp [h], by simp [h], by simp [h],
          Or.inr ⟨by simp [h], Or.inr h⟩⟩
      · exact ⟨by simp [h], by simp [h], by simp [h], by simp [h], Or.inl (by simp [h])⟩
    have hbaseDone : ∀ t ∈ s.taskQueue, t.id = tid →
        ((fun u => if u.id = tid then { u with status := TaskStatus.completed } else u) t).status
          = TaskStatus.completed := by
      intro t _ h
      simp [h]
    have hbaseAg : ∀ a ∈ s.agents, (gC a).id = a.id ∧
        ((∃ T2 ∈ s.taskQueue, T2.id = tid) → a.id = aid → (gC a).status = AgentStatus.idle) ∧
        (a.id ≠ aid → (gC a).status = a.status) := by
      intro a ha
      obtain ⟨p1, p2, p3⟩ := hcp a ha
      exact ⟨p1, fun _ => p2, p3⟩
    cases hpar : T.parentTaskId with
    | none =>
      rw [logOutputGo_parent_none recur s tid aid out T hfind hpar]
      exact ⟨_, gC, hcq, hcg, hbaseCO, hbaseDone, hbaseAg⟩
    | some pid =>
      cases hagg : aggregationResult (logOutputCore s tid aid out T) pid with
      | none =>
        rw [logOutputGo_parent_skip recur s tid aid out T pid hfind hpar hagg]
        exact ⟨_, gC, hcq, hcg, hbaseCO, hbaseDone, hbaseAg⟩
      | some agg =>
        rw [logOutputGo_parent_agg recur s tid aid out T pid agg hfind hpar hagg]
        have hidsC : ((logOutputCore s tid aid out T).taskQueue.map Task.id).Nodup := by
          rw [hcq, map_proj_eq]
          · exact hnd
          · intro u _
            by_cases h : u.id = tid <;> simp [h]
        have h10C : ∀ u ∈ (logOutputCore s tid aid out T).taskQueue,
            u.subtasks ≠ [] → u.status ≠ TaskStatus.processing := by
          rw [hcq]
          intro u hu hsub
          obtain ⟨v, hv, rfl⟩ := List.mem_map.mp hu
          by_cases h : v.id = tid
          · simp [h]
          · simp only [if_neg h] at hsub ⊢
            exact h10 v hv hsub
        have h9C : ∀ t ∈ (logOutputCore s tid aid out T).taskQueue, ∀ pid2,
            t.parentTaskId = some pid2 →
            ∃ u ∈ (logOutputCore s tid aid out T).taskQueue,
              u.id = pid2 ∧ u.subtasks ≠ [] := by
          rw [hcq]
          intro t2 ht2 pid2 hp2
          obtain ⟨v, hv, rfl⟩ := List.mem_map.mp ht2
          have hvp : v.parentTaskId = some pid2 := by
            by_cases h : v.id = tid <;> simpa [h] using hp2
          obtain ⟨w, hw, hwid, hwsub⟩ := h9 v hv pid2 hvp
          refine ⟨if w.id = tid then { w with status := TaskStatus.completed } else w,
            List.mem_map.mpr ⟨w, hw, rfl⟩, ?_, ?_⟩
          · have hidw : (if w.id = tid then { w with status := TaskStatus.completed } else w).id
                = w.id := by
              by_cases h : w.id = tid <;> simp [h]
            rw [hidw, hwid]
          · have hsubw : (if w.id = tid then { w with status := TaskStatus.completed } else w).subtasks
                = w.subtasks := by
              by_cases h : w.id = tid <;> simp [h]
            rw [hsubw]
            exact hwsub
        have hagfC : ∀ a ∈ (logOutputCore s tid aid out T).agents,
            a.id ≠ "AGGREGATOR_SYSTEM" := by
          rw [hcg]
          intro a2 ha2
          obtain ⟨a, ha, rfl⟩ := List.mem_map.mp ha2
          rw [(hcp a ha).1]
          exact hagf a ha
        obtain ⟨f2, g2, hq2, ha2, hco2, hgp2⟩ :=
          hrec (logOutputCore s tid aid out T) pid agg hidsC h10C h9C hagfC
        have hpidsub : ∀ u ∈ (logOutputCore s tid aid out T).taskQueue,
            u.id = pid → u.subtasks ≠ [] := by
          obtain ⟨c, hcmem, hcpar⟩ := aggregationResult_child hagg
          obtain ⟨w, hw, hwid, hwsub⟩ := h9C c hcmem pid hcpar
          intro u hu huid
          have huw : u = w := List.inj_on_of_nodup_map hidsC hu hw (by rw [huid, hwid])
          rw [huw]
          exact hwsub
        refine ⟨fun u => f2 (if u.id = tid then { u with status := TaskStatus.completed } else u),
          fun a => g2 (gC a), ?_, ?_, ?_, ?_, ?_⟩
        · rw [hq2, hcq, List.map_map]
          rfl
        · rw [ha2, hcg, List.map_map]
          rfl
        · intro t ht
          have hmem1 : (if t.id = tid then { t with status := TaskStatus.completed } else t)
              ∈ (logOutputCore s tid aid out T).taskQueue := by
            rw [hcq]
            exact List.mem_map.mpr ⟨t, ht, rfl⟩
          obtain ⟨c1, c2, c3, c4, c5⟩ := hco2 _ hmem1
          obtain ⟨b1, b2, b3, b4, b5⟩ := hbaseCO t ht
          refine ⟨c1.trans b1, c2.trans b2, c3.trans b3, c4.trans b4, ?_⟩
          rcases c5 with c5a | ⟨c5b, c5c⟩
          · rcases b5 with b5a | ⟨b5b, b5c⟩
            · exact Or.inl (c5a.trans b5a)
            · exact Or.inr ⟨c5a.trans b5b, b5c⟩
          · refine Or.inr ⟨c5b, ?_⟩
            rcases c5c with hsub | hid2
            · left
              rw [← b3]
              exact hsub
            · left
              have hps := hpidsub _ hmem1 hid2
              rw [← b3]
              exact hps
        · intro t ht h
          have hmem1 : (if t.id = tid then { t with status := TaskStatus.completed } else t)
              ∈ (logOutputCore s tid aid out T).taskQueue := by
            rw [hcq]
            exact List.mem_map.mpr ⟨t, ht, rfl⟩
          obtain ⟨-, -, -, -, c5⟩ := hco2 _ hmem1
          rcases c5 with c5a | ⟨c5b, -⟩
          · exact c5a.trans (hbaseDone t ht h)
          · exact c5b
        · intro a ha
          have hmemA : gC a ∈ (logOutputCore s tid aid out T).agents := by
            rw [hcg]
            exact List.mem_map.mpr ⟨a, ha, rfl⟩
          obtain ⟨q1, q2⟩ := hgp2 (gC a) hmemA
          obtain ⟨p1, p2, p3⟩ := hcp a ha
          exact ⟨q1.trans p1, fun _ hid => q2.trans (p2 hid), fun hid => q2.trans (p3 hid)⟩

/-- The cut-off continuation (no fuel left) trivially satisfies the
aggregation effect contract. -/
theorem aggEffect_stop : AggEffect (fun s _ _ _ => s) := by
  intro s tid out hnd h10 h9 hagf
  exact ⟨id, id, (List.map_id _).symm, (List.map_id _).symm,
    fun t _ => ⟨rfl, rfl, rfl, rfl, Or.inl rfl⟩, fun a _ => ⟨rfl, rfl⟩⟩

/-- Every fuelled `logOutput` satisfies the aggregation effect
contract. -/
theorem logOutput_aggEffect : ∀ fuel : ℕ, AggEffect (logOutput fuel) := by
  intro fuel
  induction fuel with
  | zero =>
    intro s tid out hnd h10 h9 hagf
    obtain ⟨f, g, hq, ha, hco, hdone, hgp⟩ :=
      logOutputGo_effect (fun s _ _ _ => s) aggEffect_stop s tid "AGGREGATOR_SYSTEM" out
        hnd h10 h9 hagf
    exact ⟨f, g, hq, ha, hco, fun a haa =>
      ⟨(hgp a haa).1, (hgp a haa).2.2 (hagf a haa)⟩⟩
  | succ n ih =>
    intro s tid out hnd h10 h9 hagf
    obtain ⟨f, g, hq, ha, hco, hdone, hgp⟩ :=
      logOutputGo_effect (logOutput n) ih s tid "AGGREGATOR_SYSTEM" out hnd h10 h9 hagf
    exact ⟨f, g, hq, ha, hco, fun a haa =>
      ⟨(hgp a haa).1, (hgp a haa).2.2 (hagf a haa)⟩⟩

/-- Full effect contract of a fuelled `logOutput` call (the entry point
used by `applyDispatchOutcome`). -/
theorem logOutput_effect (fuel : ℕ) (s : EngineState) (tid aid : String)
    (out : DispatchResult)
    (hnd : (s.taskQueue.map Task.id).Nodup)
    (h10 : ∀ u ∈ s.taskQueue, u.subtasks ≠ [] → u.status ≠ TaskStatus.processing)
    (h9 : ∀ t ∈ s.taskQueue, ∀ pid, t.parentTaskId = some pid →
      ∃ u ∈ s.taskQueue, u.id = pid ∧ u.subtasks ≠ [])
    (hagf : ∀ a ∈ s.agents, a.id ≠ "AGGREGATOR_SYSTEM") :
    ∃ f : Task → Task, ∃ g : Agent → Agent,
      (logOutput fuel s tid aid out).taskQueue = s.taskQueue.map f ∧
      (logOutput fuel s tid aid out).agents = s.agents.map g ∧
      (∀ t ∈ s.taskQueue, CompletionOnly tid f t) ∧
      (∀ t ∈ s.taskQueue, t.id = tid → (f t).status = TaskStatus.completed) ∧
      (∀ a ∈ s.agents, (g a).id = a.id ∧
        ((∃ T ∈ s.taskQueue, T.id = tid) → a.id = aid → (g a).status = AgentStatus.idle) ∧
        (a.id ≠ aid → (g a).status = a.status)) := by
  cases fuel with
  | zero => exact logOutputGo_effect (fun s _ _ _ => s) aggEffect_stop s tid aid out hnd h10 h9 hagf
  | succ n =>
    exact logOutputGo_effect (logOutput n) (logOutput_aggEffect n) s tid aid out hnd h10 h9 hagf

/-- A fresh engine satisfies the strengthened invariant. -/
theorem goodConfig_init : GoodConfig (initState, []) := by
  unfold GoodConfig AgentTaskInv initState
  simp

/-- Transport of `GoodConfig` through the settlement of the in-flight
dispatch `(tid, aid)`: the queue is mapped preserving id/sub-task/parent
fields — with status/assignment changes confined to the target task and
to recorded parents, never producing a fresh `processing` task and
taking the target task out of `processing` — while the agents are
mapped preserving ids, idling the settled agent and keeping every other
status.  This covers the failure, reassignment and success paths of
`applyDispatchOutcome`. -/
theorem goodConfig_update_release
    (s : EngineState) (fl : List (String × String)) (tid aid : String)
    (hg : GoodConfig (s, fl)) (hmem : (tid, aid) ∈ fl)
    (s2 : EngineState) (f : Task → Task) (g : Agent → Agent)
    (hq : s2.taskQueue = s.taskQueue.map f)
    (ha : s2.agents = s.agents.map g)
    (hf : ∀ t ∈ s.taskQueue,
      (f t).id = t.id ∧ (f t).subtasks = t.subtasks ∧ (f t).parentTaskId = t.parentTaskId ∧
      (((f t).status = t.status ∧ (f t).assignedTo = t.assignedTo) ∨
        t.id = tid ∨ t.subtasks ≠ []) ∧
      ((f t).status = TaskStatus.processing →
        t.status = TaskStatus.processing ∧ (f t).assignedTo = t.assignedTo) ∧
      (t.id = tid → (f t).status ≠ TaskStatus.processing))
    (hga : ∀ a ∈ s.agents, (g a).id = a.id ∧
      (a.id = aid → (g a).status = AgentStatus.idle) ∧
      (a.id ≠ aid → (g a).status = a.status)) :
    GoodConfig (s2, fl.erase (tid, aid)) := by
  obtain ⟨hA1, hT2, hA3, hInv, hEx, hUniq, hFl, hFlN, hPar, hSub⟩ := hg
  obtain ⟨T, hTq, hTid, hTproc, hTass⟩ := hFl (tid, aid) hmem
  have hidsEq : s2.taskQueue.map Task.id = s.taskQueue.map Task.id := by
    rw [hq]
    exact map_proj_eq _ _ _ (fun t ht => (hf t ht).1)
  have haidsEq : s2.agents.map Agent.id = s.agents.map Agent.id := by
    rw [ha]
    exact map_proj_eq _ _ _ (fun a haa => (hga a haa).1)
  refine ⟨?_, ?_, ?_, ?_, ?_, ?_, ?_, ?_, ?_, ?_⟩
  · show (s2.agents.map Agent.id).Nodup
    rw [haidsEq]
    exact hA1
  · show (s2.taskQueue.map Task.id).Nodup
    rw [hidsEq]
    exact hT2
  · show ∀ a ∈ s2.agents, a.id ≠ "AGGREGATOR_SYSTEM"
    rw [ha]
    intro a2 ha2
    obtain ⟨a, haa, rfl⟩ := List.mem_map.mp ha2
    rw [(hga a haa).1]
    exact hA3 a haa
  · show AgentTaskInv s2
    intro a2 ha2
    rw [ha] at ha2
    obtain ⟨a, haa, rfl⟩ := List.mem_map.mp ha2
    obtain ⟨p1, p2, p3⟩ := hga a haa
    by_cases hid : a.id = aid
    · rw [p2 hid, p1, hid]
      constructor
      · intro hb
        exact absurd hb (by decide)
      · rintro ⟨t2, ht2, htp, hta⟩
        exfalso
        rw [hq] at ht2
        obtain ⟨u, hu, rfl⟩ := List.mem_map.mp ht2
        obtain ⟨-, -, -, -, u5, u6⟩ := hf u hu
        obtain ⟨hup, hua⟩ := u5 htp
        have huass : u.assignedTo = some aid := by
          rw [← hua]
          exact hta
        have hids : u.id = T.id := hUniq u hu T hTq hup hTproc (by rw [huass, hTass])
        exact u6 (by rw [hids, hTid]) htp
    · rw [p3 hid, p1]
      rw [hInv a haa]
      constructor
      · rintro ⟨u, hu, hup, hua⟩
        have hunt : u.id ≠ tid := by
          intro he
          have huT : u = T := List.inj_on_of_nodup_map hT2 hu hTq (by rw [he, hTid])
          rw [huT, hTass] at hua
          exact hid (by simpa using hua.symm)
        have husub : u.subtasks = [] := by
          by_contra hne
          exact hSub u hu hne hup
        obtain ⟨-, -, -, u4, -, -⟩ := hf u hu
        rcases u4 with ⟨hs, hass⟩ | hcase | hcase
        · refine ⟨f u, by rw [hq]; exact List.mem_map.mpr ⟨u, hu, rfl⟩, ?_, ?_⟩
          · rw [hs]
            exact hup
          · rw [hass]
            exact hua
        · exact absurd hcase hunt
        · exact absurd hcase (by simp [husub])
      · rintro ⟨t2, ht2, htp, hta⟩
        rw [hq] at ht2
        obtain ⟨u, hu, rfl⟩ := List.mem_map.mp ht2
        obtain ⟨-, -, -, -, u5, -⟩ := hf u hu
        obtain ⟨hup, hua⟩ := u5 htp
        refine ⟨u, hu, hup, ?_⟩
        rw [← hua]
        exact hta
  · show ∀ t ∈ s2.taskQueue, t.status = TaskStatus.processing →
      ∃ a ∈ s2.agents, t.assignedTo = some a.id
    rw [hq, ha]
    intro t2 ht2 htp
    obtain ⟨u, hu, rfl⟩ := List.mem_map.mp ht2
    obtain ⟨-, -, -, -, u5, -⟩ := hf u hu
    obtain ⟨hup, hua⟩ := u5 htp
    obtain ⟨b, hb, hbass⟩ := hEx u hu hup
    refine ⟨g b, List.mem_map.mpr ⟨b, hb, rfl⟩, ?_⟩
    rw [hua, hbass, (hga b hb).1]
  · show ∀ t1 ∈ s2.taskQueue, ∀ t2 ∈ s2.taskQueue,
      t1.status = TaskStatus.processing → t2.status = TaskStatus.processing →
      t1.assignedTo = t2.assignedTo → t1.id = t2.id
    rw [hq]
    intro t1 ht1 t2 ht2 hp1 hp2 hass
    obtain ⟨u1, hu1, rfl⟩ := List.mem_map.mp ht1
    obtain ⟨u2, hu2, rfl⟩ := List.mem_map.mp ht2
    obtain ⟨e1, -, -, -, c51, -⟩ := hf u1 hu1
    obtain ⟨e2, -, -, -, c52, -⟩ := hf u2 hu2
    obtain ⟨hq1, ha1⟩ := c51 hp1
    obtain ⟨hq2, ha2⟩ := c52 hp2
    rw [e1, e2]
    apply hUniq u1 hu1 u2 hu2 hq1 hq2
    rw [← ha1, ← ha2]
    exact hass
  · show ∀ p ∈ fl.erase (tid, aid), ∃ t ∈ s2.taskQueue,
      t.id = p.1 ∧ t.status = TaskStatus.processing ∧ t.assignedTo = some p.2
    intro p hp
    have hpfl : p ∈ fl := List.mem_of_mem_erase hp
    have hpne : p ≠ (tid, aid) := by
      have hflnd : fl.Nodup := List.Nodup.of_map _ hFlN
      exact ((List.Nodup.mem_erase_iff hflnd).mp hp).1
    have hp1ne : p.1 ≠ tid := by
      intro he
      exact hpne (List.inj_on_of_nodup_map hFlN hpfl hmem he)
    obtain ⟨u, hu, huid, hup, hua⟩ := hFl p hpfl
    have hunt : u.id ≠ tid := by
      rw [huid]
      exact hp1ne
    have husub : u.subtasks = [] := by
      by_contra hne
      exact hSub u hu hne hup
    obtain ⟨e1, -, -, u4, -, -⟩ := hf u hu
    rcases u4 with ⟨hs, hass⟩ | hcase | hcase
    · refine ⟨f u, by rw [hq]; exact List.mem_map.mpr ⟨u, hu, rfl⟩, ?_, ?_, ?_⟩
      · rw [e1, huid]
      · rw [hs]
        exact hup
      · rw [hass]
        exact hua
    · exact absurd hcase hunt
    · exact absurd hcase (by simp [husub])
  · show ((fl.erase (tid, aid)).map Prod.fst).Nodup
    exact List.Nodup.sublist (List.Sublist.map _ (List.erase_sublist _ _)) hFlN
  · show ∀ t ∈ s2.taskQueue, ∀ pid, t.parentTaskId = some pid →
      ∃ u ∈ s2.taskQueue, u.id = pid ∧ u.subtasks ≠ []
    rw [hq]
    intro t2 ht2 pid hpid
    obtain ⟨u, hu, rfl⟩ := List.mem_map.mp ht2
    obtain ⟨-, -, e3, -, -, -⟩ := hf u hu
    rw [e3] at hpid
    obtain ⟨w, hw, hwid, hwsub⟩ := hPar u hu pid hpid
    obtain ⟨we1, we2, -, -, -, -⟩ := hf w hw
    refine ⟨f w, List.mem_map.mpr ⟨w, hw, rfl⟩, ?_, ?_⟩
    · rw [we1, hwid]
    · rw [we2]
      exact hwsub
  · show ∀ u2 ∈ s2.taskQueue, u2.subtasks ≠ [] → u2.status ≠ TaskStatus.processing
    rw [hq]
    intro u2 hu2 hsub
    obtain ⟨u, hu, rfl⟩ := List.mem_map.mp hu2
    obtain ⟨-, e2, -, -, u5, -⟩ := hf u hu
    rw [e2] at hsub
    intro hproc
    obtain ⟨hup, -⟩ := u5 hproc
    exact hSub u hu hsub hup

/-- Registration preserves the strengthened invariant (under the
sentinel-id restriction of strict reachability). -/
theorem step_register_good (vd : List String) (s : EngineState)
    (fl : List (String × String)) (m : AgentMeta) (genId : String)
    (hg : GoodConfig (s, fl))
    (hfresh : m.id = none → s.agents.all (fun a => a.id ≠ genId))
    (hAgg : m.id.getD genId ≠ "AGGREGATOR_SYSTEM") :
    GoodConfig (registerAgent vd s m genId, fl) := by
  obtain ⟨hA1, hT2, hA3, hInv, hEx, hUniq, hFl, hFlN, hPar, hSub⟩ := hg
  unfold registerAgent
  by_cases hv : validateAgent vd s.agents m
  case neg =>
    rw [if_neg hv]
    exact ⟨hA1, hT2, hA3, hInv, hEx, hUniq, hFl, hFlN, hPar, hSub⟩
  case pos =>
    rw [if_pos hv]
    have hfresh2 : ∀ a ∈ s.agents, a.id ≠ m.id.getD genId := by
      cases hm : m.id with
      | none =>
        have hall := hfresh hm
        rw [List.all_eq_true] at hall
        intro a haa
        simpa using hall a haa
      | some i =>
        have hvv := hv
        unfold validateAgent at hvv
        rw [hm] at hvv
        simp only [Bool.and_eq_true] at hvv
        have hall : s.agents.all (fun a => decide (a.id ≠ i)) = true := hvv.1.1
        rw [List.all_eq_true] at hall
        intro a haa
        simpa using hall a haa
    refine ⟨?_, hT2, ?_, ?_, ?_, hUniq, hFl, hFlN, hPar, hSub⟩
    · show ((s.agents ++
          [({ id := m.id.getD genId, domainLabels := m.domainLabels,
              skillScores := m.skillScores, apiEndpoint := m.apiEndpoint,
              performanceData := m.performanceData,
              status := AgentStatus.idle } : Agent)]).map Agent.id).Nodup
      rw [List.map_append, List.nodup_append]
      refine ⟨hA1, by simp, ?_⟩
      intro x hx1 hx2
      obtain ⟨a, haa, rfl⟩ := List.mem_map.mp hx1
      simp only [List.map_cons, List.map_nil, List.mem_singleton] at hx2
      exact hfresh2 a haa hx2
    · intro a haa
      rcases List.mem_append.mp haa with h | h
      · exact hA3 a h
      · rw [List.mem_singleton] at h
        rw [h]
        exact hAgg
    · intro a haa
      rcases List.mem_append.mp haa with h | h
      · exact hInv a h
      · rw [List.mem_singleton] at h
        subst h
        constructor
        · intro hb
          exact absurd hb (by simp)
        · rintro ⟨t, ht, htp, hta⟩
          exfalso
          obtain ⟨b, hb, hbass⟩ := hEx t ht htp
          rw [hta] at hbass
          exact hfresh2 b hb (Option.some.inj hbass).symm
    · intro t ht htp
      obtain ⟨b, hb, hbass⟩ := hEx t ht htp
      exact ⟨b, List.mem_append_left _ hb, hbass⟩

/-- Appending one fresh pending task (with no sub-tasks and no parent
pointer) and re-sorting preserves the strengthened invariant. -/
theorem goodConfig_push_pending (s : EngineState) (fl : List (String × String))
    (hg : GoodConfig (s, fl)) (nt : Task)
    (hfresh : ∀ t ∈ s.taskQueue, t.id ≠ nt.id)
    (hst : nt.status = TaskStatus.pending)
    (hnil : nt.subtasks = [])
    (hpar : nt.parentTaskId = none) :
    GoodConfig ({ s with taskQueue := sortQueue (s.taskQueue ++ [nt]) }, fl) := by
  obtain ⟨hA1, hT2, hA3, hInv, hEx, hUniq, hFl, hFlN, hPar, hSub⟩ := hg
  have hmemQ : ∀ {x : Task}, x ∈ sortQueue (s.taskQueue ++ [nt]) ↔
      x ∈ s.taskQueue ∨ x = nt := by
    intro x
    rw [mem_sortQueue, List.mem_append, List.mem_singleton]
  refine ⟨hA1, ?_, hA3, ?_, ?_, ?_, ?_, hFlN, ?_, ?_⟩
  · show ((sortQueue (s.taskQueue ++ [nt])).map Task.id).Nodup
    rw [List.Perm.nodup_iff ((sortQueue_perm _).map _)]
    rw [List.map_append, List.nodup_append]
    refine ⟨hT2, by simp, ?_⟩
    intro x hx1 hx2
    obtain ⟨u, hu, rfl⟩ := List.mem_map.mp hx1
    simp only [List.map_cons, List.map_nil, List.mem_singleton] at hx2
    exact hfresh u hu hx2
  · intro a haa
    rw [hInv a haa]
    constructor
    · rintro ⟨u, hu, hup, hua⟩
      exact ⟨u, hmemQ.mpr (Or.inl hu), hup, hua⟩
    · rintro ⟨u, hu, hup, hua⟩
      rcases hmemQ.mp hu with h | h
      · exact ⟨u, h, hup, hua⟩
      · rw [h, hst] at hup
        exact absurd hup (by decide)
  · intro t ht htp
    rcases hmemQ.mp ht with h | h
    · exact hEx t h htp
    · rw [h, hst] at htp
      exact absurd htp (by decide)
  · intro t1 ht1 t2 ht2 hp1 hp2 hass
    rcases hmemQ.mp ht1 with h1 | h1
    · rcases hmemQ.mp ht2 with h2 | h2
      · exact hUniq t1 h1 t2 h2 hp1 hp2 hass
      · rw [h2, hst] at hp2
        exact absurd hp2 (by decide)
    · rw [h1, hst] at hp1
      exact absurd hp1 (by decide)
  · intro p hp
    obtain ⟨u, hu, h1, h2, h3⟩ := hFl p hp
    exact ⟨u, hmemQ.mpr (Or.inl hu), h1, h2, h3⟩
  · intro t ht pid hpid
    rcases hmemQ.mp ht with h | h
    · obtain ⟨w, hw, hwid, hwsub⟩ := hPar t h pid hpid
      exact ⟨w, hmemQ.mpr (Or.inl hw), hwid, hwsub⟩
    · rw [h, hpar] at hpid
      exact absurd hpid (by simp)
  · intro u hu hsub
    rcases hmemQ.mp hu with h | h
    · exact hSub u h hsub
    · rw [h, hnil] at hsub
      exact absurd rfl hsub

/-- Submission preserves the strengthened invariant when the payload
carries no parent pointer (the submission schema of the
specification). -/
theorem step_submit_good (vd : List String) (s : EngineState)
    (fl : List (String × String)) (d : TaskData) (tid : String)
    (hg : GoodConfig (s, fl))
    (hfresh : s.taskQueue.all (fun t => t.id ≠ tid))
    (hpar : d.parentTaskId = none) :
    GoodConfig (submitTask vd s d tid, fl) := by
  unfold submitTask
  by_cases hv : validateTask vd d
  case neg =>
    rw [if_neg hv]
    exact hg
  case pos =>
    rw [if_pos hv]
    refine goodConfig_push_pending s fl hg _ ?_ rfl rfl hpar
    rw [List.all_eq_true] at hfresh
    intro t ht
    simpa using hfresh t ht

/-- Exhaustive description of the synchronous scheduler prefix: it is a
no-op, a split, or a dispatch commit (with or without the collaboration
boost). -/
theorem processQueueStart_cases (s : EngineState) (sid1 sid2 : String) :
    processQueueStart s sid1 sid2 = (s, none) ∨
    (∃ t, findNextTask s = some t ∧
      processQueueStart s sid1 sid2 = (handleTaskSplitting s t sid1 sid2, none)) ∨
    (∃ t aid p, findNextTask s = some t ∧
      evaluateAssignment s t t.failedAgents = some (aid, p) ∧
      (processQueueStart s sid1 sid2 =
          (assignTaskToAgent s t.id aid p, some (t.id, aid)) ∨
       processQueueStart s sid1 sid2 =
          (assignTaskToAgent (handleTaskCollaboration s t.id) t.id aid p,
           some (t.id, aid)))) := by
  cases hf : findNextTask s with
  | none =>
    left
    simp only [processQueueStart, hf]
  | some t =>
    cases he : evaluateAssignment s t t.failedAgents with
    | none =>
      left
      simp only [processQueueStart, hf, he]
    | some pr =>
      obtain ⟨aid, p⟩ := pr
      by_cases hp : p < threshold
      · cases hs : suggestRemediation s t with
        | split =>
          right
          left
          refine ⟨t, rfl, ?_⟩
          simp only [processQueueStart, hf, he]
          rw [if_pos hp, hs]
        | collaborate =>
          right
          right
          refine ⟨t, aid, p, rfl, he, Or.inr ?_⟩
          simp only [processQueueStart, hf, he]
          rw [if_pos hp, hs]
        | reroute =>
          left
          simp only [processQueueStart, hf, he]
          rw [if_pos hp, hs]
      · right
        right
        refine ⟨t, aid, p, rfl, he, Or.inl ?_⟩
        simp only [processQueueStart, hf, he]
        rw [if_neg hp]

/-- Task decomposition (the queue shape produced by `decomposeTask` on
a found pending parent with two fresh children) preserves the
strengthened invariant. -/
theorem goodConfig_decompose (s : EngineState) (fl : List (String × String))
    (t c1 c2 : Task) (sid1 sid2 : String)
    (hg : GoodConfig (s, fl))
    (h1 : ∀ u ∈ s.taskQueue, u.id ≠ sid1)
    (h2 : ∀ u ∈ s.taskQueue, u.id ≠ sid2)
    (hne : sid1 ≠ sid2)
    (htmem : t ∈ s.taskQueue)
    (htstat : t.status = TaskStatus.pending)
    (htsub : t.subtasks = [])
    (hc1id : c1.id = sid1) (hc2id : c2.id = sid2)
    (hc1st : c1.status = TaskStatus.pending) (hc2st : c2.status = TaskStatus.pending)
    (hc1sub : c1.subtasks = []) (hc2sub : c2.subtasks = [])
    (hc1par : c1.parentTaskId = some t.id) (hc2par : c2.parentTaskId = some t.id)
    (gP : Task → Task)
    (hgP : ∀ u, gP u = if u.id = t.id then
      { u with status := TaskStatus.waitingForSubtasks,
               subtasks := u.subtasks ++ [sid1, sid2] } else u) :
    GoodConfig ({ s with taskQueue := sortQueue (s.taskQueue.map gP ++ [c1, c2]) }, fl) := by
  obtain ⟨hA1, hT2, hA3, hInv, hEx, hUniq, hFl, hFlN, hPar, hSub⟩ := hg
  have hgPid : ∀ u, (gP u).id = u.id := by
    intro u
    rw [hgP]
    by_cases h : u.id = t.id <;> simp [h]
  have hgPpar : ∀ u, (gP u).parentTaskId = u.parentTaskId := by
    intro u
    rw [hgP]
    by_cases h : u.id = t.id <;> simp [h]
  have hgPne : ∀ u, u.id ≠ t.id → gP u = u := by
    intro u h
    rw [hgP, if_neg h]
  have htuniq : ∀ u ∈ s.taskQueue, u.id = t.id → u = t :=
    fun u hu he => List.inj_on_of_nodup_map hT2 hu htmem he
  have hprocne : ∀ u ∈ s.taskQueue, u.status = TaskStatus.processing → u.id ≠ t.id := by
    intro u hu hup he
    have hut := htuniq u hu he
    rw [hut, htstat] at hup
    exact absurd hup (by simp)
  have hmemQ : ∀ {x : Task}, x ∈ sortQueue (s.taskQueue.map gP ++ [c1, c2]) ↔
      (x ∈ s.taskQueue.map gP ∨ x = c1 ∨ x = c2) := by
    intro x
    rw [mem_sortQueue, List.mem_append, List.mem_cons, List.mem_singleton]
  have resolveProc : ∀ x ∈ sortQueue (s.taskQueue.map gP ++ [c1, c2]),
      x.status = TaskStatus.processing → x ∈ s.taskQueue := by
    intro x hx hxp
    rcases hmemQ.mp hx with h | h | h
    · obtain ⟨u, hu, rfl⟩ := List.mem_map.mp h
      by_cases he : u.id = t.id
      · rw [hgP u, if_pos he] at hxp
        exact absurd hxp (by simp)
      · rw [hgPne u he]
        exact hu
    · rw [h, hc1st] at hxp
      exact absurd hxp (by simp)
    · rw [h, hc2st] at hxp
      exact absurd hxp (by simp)
  refine ⟨hA1, ?_, hA3, ?_, ?_, ?_, ?_, hFlN, ?_, ?_⟩
  · show ((sortQueue (s.taskQueue.map gP ++ [c1, c2])).map Task.id).Nodup
    rw [List.Perm.nodup_iff ((sortQueue_perm _).map _)]
    rw [List.map_append, map_proj_eq _ _ _ (fun u _ => hgPid u), List.nodup_append]
    refine ⟨hT2, ?_, ?_⟩
    · simp [hc1id, hc2id, hne]
    · intro x hx1 hx2
      obtain ⟨u, hu, rfl⟩ := List.mem_map.mp hx1
      simp only [List.map_cons, List.map_nil, List.mem_cons, List.mem_singleton,
        List.not_mem_nil, or_false] at hx2
      rcases hx2 with h | h
      · rw [hc1id] at h
        exact h1 u hu h
      · rw [hc2id] at h
        exact h2 u hu h
  · intro a haa
    rw [hInv a haa]
    constructor
    · rintro ⟨u, hu, hup, hua⟩
      have hun := hprocne u hu hup
      exact ⟨u, hmemQ.mpr (Or.inl (List.mem_map.mpr ⟨u, hu, hgPne u hun⟩)), hup, hua⟩
    · rintro ⟨x, hx, hxp, hxa⟩
      exact ⟨x, resolveProc x hx hxp, hxp, hxa⟩
  · intro x hx hxp
    exact hEx x (resolveProc x hx hxp) hxp
  · intro x1 hx1 x2 hx2 hp1 hp2 hass
    exact hUniq x1 (resolveProc x1 hx1 hp1) x2 (resolveProc x2 hx2 hp2) hp1 hp2 hass
  · intro pr hpr
    obtain ⟨u, hu, huid, hup, hua⟩ := hFl pr hpr
    have hun := hprocne u hu hup
    exact ⟨u, hmemQ.mpr (Or.inl (List.mem_map.mpr ⟨u, hu, hgPne u hun⟩)), huid, hup, hua⟩
  · intro x hx pid hpid
    rcases hmemQ.mp hx with h | h | h
    · obtain ⟨u, hu, rfl⟩ := List.mem_map.mp h
      rw [hgPpar u] at hpid
      obtain ⟨w, hw, hwid, hwsub⟩ := hPar u hu pid hpid
      have hwne : w.id ≠ t.id := by
        intro he
        have hwt := htuniq w hw he
        rw [hwt, htsub] at hwsub
        exact hwsub rfl
      exact ⟨w, hmemQ.mpr (Or.inl (List.mem_map.mpr ⟨w, hw, hgPne w hwne⟩)), hwid, hwsub⟩
    · rw [h, hc1par] at hpid
      have hpidt : pid = t.id := (Option.some.inj hpid).symm
      refine ⟨gP t, hmemQ.mpr (Or.inl (List.mem_map.mpr ⟨t, htmem, rfl⟩)), ?_, ?_⟩
      · rw [hgPid t, hpidt]
      · rw [hgP t, if_pos rfl]
        simp [htsub]
    · rw [h, hc2par] at hpid
      have hpidt : pid = t.id := (Option.some.inj hpid).symm
      refine ⟨gP t, hmemQ.mpr (Or.inl (List.mem_map.mpr ⟨t, htmem, rfl⟩)), ?_, ?_⟩
      · rw [hgPid t, hpidt]
      · rw [hgP t, if_pos rfl]
        simp [htsub]
  · intro x hx hxsub
    rcases hmemQ.mp hx with h | h | h
    · obtain ⟨u, hu, rfl⟩ := List.mem_map.mp h
      by_cases he : u.id = t.id
      · rw [hgP u, if_pos he]
        simp
      · rw [hgPne u he] at hxsub ⊢
        exact hSub u hu hxsub
    · rw [h, hc1sub] at hxsub
      exact absurd rfl hxsub
    · rw [h, hc2sub] at hxsub
      exact absurd rfl hxsub

/-- The dispatch commit (possibly preceded by a collaboration boost,
abstracted as the scheduling-field-preserving map `gC`) preserves the
strengthened invariant, pushing the new in-flight pair. -/
theorem goodConfig_assign (s : EngineState) (fl : List (String × String))
    (t : Task) (aid : String) (p : ℚ)
    (hg : GoodConfig (s, fl))
    (htmem : t ∈ s.taskQueue)
    (htstat : t.status = TaskStatus.pending)
    (htsub : t.subtasks = [])
    (hev : evaluateAssignment s t t.failedAgents = some (aid, p))
    (sMid : EngineState) (gC : Task → Task)
    (hMq : sMid.taskQueue = s.taskQueue.map gC)
    (hMa : sMid.agents = s.agents)
    (hgC : ∀ u, (gC u).id = u.id ∧ (gC u).status = u.status ∧
      (gC u).assignedTo = u.assignedTo ∧ (gC u).subtasks = u.subtasks ∧
      (gC u).parentTaskId = u.parentTaskId) :
    GoodConfig (assignTaskToAgent sMid t.id aid p, (t.id, aid) :: fl) := by
  obtain ⟨hA1, hT2, hA3, hInv, hEx, hUniq, hFl, hFlN, hPar, hSub⟩ := hg
  obtain ⟨A, hA, hAid, hAidle, -⟩ := evaluateAssignment_spec s t t.failedAgents aid p hev
  have htuniq : ∀ u ∈ s.taskQueue, u.id = t.id → u = t :=
    fun u hu he => List.inj_on_of_nodup_map hT2 hu htmem he
  have hprocne : ∀ u ∈ s.taskQueue, u.status = TaskStatus.processing → u.id ≠ t.id := by
    intro u hu hup he
    have hut := htuniq u hu he
    rw [hut, htstat] at hup
    exact absurd hup (by simp)
  have hnoAid : ∀ u ∈ s.taskQueue, u.status = TaskStatus.processing →
      u.assignedTo ≠ some aid := by
    intro u hu hup hcon
    have hbusy := (hInv A hA).mpr ⟨u, hu, hup, by rw [hcon, hAid]⟩
    rw [hAidle] at hbusy
    exact absurd hbusy (by simp)
  have hQ : (assignTaskToAgent sMid t.id aid p).taskQueue =
      (s.taskQueue.map gC).map (fun u => if u.id = t.id then
        { u with status := TaskStatus.processing, assignedTo := some aid,
                 predictedSuccess := p } else u) := by
    rw [← hMq]
    rfl
  have hQ2 : (assignTaskToAgent sMid t.id aid p).taskQueue =
      s.taskQueue.map (fun u => if u.id = t.id then
        { gC u with status := TaskStatus.processing, assignedTo := some aid,
                    predictedSuccess := p } else gC u) := by
    rw [hQ, List.map_map]
    apply List.map_congr_left
    intro u _
    simp only [Function.comp]
    rw [(hgC u).1]
  obtain ⟨FF, hFF, hQ3⟩ : ∃ FF : Task → Task,
      (∀ u, FF u = if u.id = t.id then
        { gC u with status := TaskStatus.processing, assignedTo := some aid,
                    predictedSuccess := p } else gC u) ∧
      (assignTaskToAgent sMid t.id aid p).taskQueue = s.taskQueue.map FF :=
    ⟨_, fun u => rfl, hQ2⟩
  have hAg : (assignTaskToAgent sMid t.id aid p).agents =
      s.agents.map (fun a =>
        if a.id = aid then { a with status := AgentStatus.busy } else a) := by
    rw [← hMa]
    rfl
  obtain ⟨GG, hGG, hAg3⟩ : ∃ GG : Agent → Agent,
      (∀ a, GG a = if a.id = aid then { a with status := AgentStatus.busy } else a) ∧
      (assignTaskToAgent sMid t.id aid p).agents = s.agents.map GG :=
    ⟨_, fun a => rfl, hAg⟩
  have hFFne : ∀ u, u.id ≠ t.id → FF u = gC u := by
    intro u h
    rw [hFF, if_neg h]
  have hFFt : FF t =
      { gC t with status := TaskStatus.processing, assignedTo := some aid,
                  predictedSuccess := p } := by
    rw [hFF, if_pos rfl]
  have hFFid : ∀ u, (FF u).id = u.id := by
    intro u
    rw [hFF]
    by_cases h : u.id = t.id
    · simp only [if_pos h]
      simp [(hgC u).1]
    · simp only [if_neg h]
      exact (hgC u).1
  have hFFsub : ∀ u, (FF u).subtasks = u.subtasks := by
    intro u
    rw [hFF]
    by_cases h : u.id = t.id
    · simp only [if_pos h]
      simp [(hgC u).2.2.2.1]
    · simp only [if_neg h]
      exact (hgC u).2.2.2.1
  have hFFpar : ∀ u, (FF u).parentTaskId = u.parentTaskId := by
    intro u
    rw [hFF]
    by_cases h : u.id = t.id
    · simp only [if_pos h]
      simp [(hgC u).2.2.2.2]
    · simp only [if_neg h]
      exact (hgC u).2.2.2.2
  have hFFstat : ∀ u, u.id ≠ t.id →
      (FF u).status = u.status ∧ (FF u).assignedTo = u.assignedTo := by
    intro u h
    rw [hFFne u h]
    exact ⟨(hgC u).2.1, (hgC u).2.2.1⟩
  have hFFtstat : (FF t).status = TaskStatus.processing ∧ (FF t).assignedTo = some aid := by
    rw [hFFt]
    exact ⟨rfl, rfl⟩
  have hGGid : ∀ a, (GG a).id = a.id := by
    intro a
    rw [hGG]
    by_cases h : a.id = aid <;> simp [h]
  have hGGaid : ∀ a, a.id = aid → (GG a).status = AgentStatus.busy := by
    intro a h
    rw [hGG, if_pos h]
  have hGGne : ∀ a, a.id ≠ aid → GG a = a := by
    intro a h
    rw [hGG, if_neg h]
  refine ⟨?_, ?_, ?_, ?_, ?_, ?_, ?_, ?_, ?_, ?_⟩
  · show ((assignTaskToAgent sMid t.id aid p).agents.map Agent.id).Nodup
    rw [hAg3, map_proj_eq _ _ _ (fun a _ => hGGid a)]
    exact hA1
  · show ((assignTaskToAgent sMid t.id aid p).taskQueue.map Task.id).Nodup
    rw [hQ3, map_proj_eq _ _ _ (fun u _ => hFFid u)]
    exact hT2
  · show ∀ a ∈ (assignTaskToAgent sMid t.id aid p).agents, a.id ≠ "AGGREGATOR_SYSTEM"
    rw [hAg3]
    intro a2 ha2
    obtain ⟨a, haa, rfl⟩ := List.mem_map.mp ha2
    rw [hGGid a]
    exact hA3 a haa
  · intro a2 ha2
    rw [hAg3] at ha2
    obtain ⟨a, haa, rfl⟩ := List.mem_map.mp ha2
    by_cases hid : a.id = aid
    · constructor
      · intro _
        refine ⟨FF t, ?_, hFFtstat.1, ?_⟩
        · rw [hQ3]
          exact List.mem_map.mpr ⟨t, htmem, rfl⟩
        · rw [hFFtstat.2, hGGid a, hid]
      · intro _
        exact hGGaid a hid
    · rw [hGGne a hid]
      rw [hInv a haa]
      constructor
      · rintro ⟨u, hu, hup, hua⟩
        have hun := hprocne u hu hup
        refine ⟨FF u, by rw [hQ3]; exact List.mem_map.mpr ⟨u, hu, rfl⟩, ?_, ?_⟩
        · rw [(hFFstat u hun).1]
          exact hup
        · rw [(hFFstat u hun).2]
          exact hua
      · rintro ⟨x, hx, hxp, hxa⟩
        rw [hQ3] at hx
        obtain ⟨u, hu, rfl⟩ := List.mem_map.mp hx
        by_cases he : u.id = t.id
        · have hut : u = t := htuniq u hu he
          rw [hut, hFFtstat.2] at hxa
          exact absurd (Option.some.inj hxa).symm hid
        · obtain ⟨hs, has⟩ := hFFstat u he
          rw [hs] at hxp
          rw [has] at hxa
          exact ⟨u, hu, hxp, hxa⟩
  · intro x hx hxp
    rw [hQ3] at hx
    obtain ⟨u, hu, rfl⟩ := List.mem_map.mp hx
    by_cases he : u.id = t.id
    · have hut : u = t := htuniq u hu he
      refine ⟨GG A, ?_, ?_⟩
      · rw [hAg3]
        exact List.mem_map.mpr ⟨A, hA, rfl⟩
      · rw [hut, hFFtstat.2, hGGid A, hAid]
    · obtain ⟨hs, has⟩ := hFFstat u he
      rw [hs] at hxp
      obtain ⟨b, hb, hbass⟩ := hEx u hu hxp
      refine ⟨GG b, ?_, ?_⟩
      · rw [hAg3]
        exact List.mem_map.mpr ⟨b, hb, rfl⟩
      · rw [has, hbass, hGGid b]
  · intro x1 hx1 x2 hx2 hp1 hp2 hass
    rw [hQ3] at hx1 hx2
    obtain ⟨u1, hu1, rfl⟩ := List.mem_map.mp hx1
    obtain ⟨u2, hu2, rfl⟩ := List.mem_map.mp hx2
    rw [hFFid u1, hFFid u2]
    by_cases he1 : u1.id = t.id
    · by_cases he2 : u2.id = t.id
      · rw [he1, he2]
      · obtain ⟨hs2, has2⟩ := hFFstat u2 he2
        rw [hs2] at hp2
        have hu2aid : u2.assignedTo = some aid := by
          rw [← has2, ← hass]
          have hut : u1 = t := htuniq u1 hu1 he1
          rw [hut, hFFtstat.2]
        exact absurd hu2aid (hnoAid u2 hu2 hp2)
    · by_cases he2 : u2.id = t.id
      · obtain ⟨hs1, has1⟩ := hFFstat u1 he1
        rw [hs1] at hp1
        have hu1aid : u1.assignedTo = some aid := by
          rw [← has1, hass]
          have hut : u2 = t := htuniq u2 hu2 he2
          rw [hut, hFFtstat.2]
        exact absurd hu1aid (hnoAid u1 hu1 hp1)
      · obtain ⟨hs1, has1⟩ := hFFstat u1 he1
        obtain ⟨hs2, has2⟩ := hFFstat u2 he2
        rw [hs1] at hp1
        rw [hs2] at hp2
        apply hUniq u1 hu1 u2 hu2 hp1 hp2
        rw [← has1, ← has2]
        exact hass
  · intro pr hpr
    rcases List.mem_cons.mp hpr with h | h
    · rw [h]
      refine ⟨FF t, by rw [hQ3]; exact List.mem_map.mpr ⟨t, htmem, rfl⟩, ?_,
        hFFtstat.1, hFFtstat.2⟩
      rw [hFFid t]
    · obtain ⟨u, hu, huid, hup, hua⟩ := hFl pr h
      have hun := hprocne u hu hup
      refine ⟨FF u, by rw [hQ3]; exact List.mem_map.mpr ⟨u, hu, rfl⟩, ?_, ?_, ?_⟩
      · rw [hFFid u, huid]
      · rw [(hFFstat u hun).1]
        exact hup
      · rw [(hFFstat u hun).2]
        exact hua
  · show ((((t.id, aid)) :: fl).map Prod.fst).Nodup
    simp only [List.map_cons]
    rw [List.nodup_cons]
    refine ⟨?_, hFlN⟩
    intro hmem2
    obtain ⟨pr, hpr, hpreq⟩ := List.mem_map.mp hmem2
    obtain ⟨u, hu, huid, hup, -⟩ := hFl pr hpr
    exact hprocne u hu hup (by rw [huid, hpreq])
  · intro x hx pid hpid
    rw [hQ3] at hx
    obtain ⟨u, hu, rfl⟩ := List.mem_map.mp hx
    rw [hFFpar u] at hpid
    obtain ⟨w, hw, hwid, hwsub⟩ := hPar u hu pid hpid
    refine ⟨FF w, by rw [hQ3]; exact List.mem_map.mpr ⟨w, hw, rfl⟩, ?_, ?_⟩
    · rw [hFFid w, hwid]
    · rw [hFFsub w]
      exact hwsub
  · intro x hx hxsub
    rw [hQ3] at hx
    obtain ⟨u, hu, rfl⟩ := List.mem_map.mp hx
    rw [hFFsub u] at hxsub
    by_cases he : u.id = t.id
    · have hut : u = t := htuniq u hu he
      rw [hut, htsub] at hxsub
      exact absurd rfl hxsub
    · rw [(hFFstat u he).1]
      exact hSub u hu hxsub

/-- One scheduler tick preserves the strengthened invariant. -/
theorem step_tick_good (s : EngineState) (fl : List (String × String))
    (sid1 sid2 : String)
    (hg : GoodConfig (s, fl))
    (h1 : s.taskQueue.all (fun t => t.id ≠ sid1))
    (h2 : s.taskQueue.all (fun t => t.id ≠ sid2))
    (hne : sid1 ≠ sid2) :
    GoodConfig ((processQueueStart s sid1 sid2).1,
      match (processQueueStart s sid1 sid2).2 with
      | some pr => pr :: fl
      | none => fl) := by
  have h1m : ∀ u ∈ s.taskQueue, u.id ≠ sid1 := by
    rw [List.all_eq_true] at h1
    intro u hu
    simpa using h1 u hu
  have h2m : ∀ u ∈ s.taskQueue, u.id ≠ sid2 := by
    rw [List.all_eq_true] at h2
    intro u hu
    simpa using h2 u hu
  rcases processQueueStart_cases s sid1 sid2 with heq | ⟨t, hft, heq⟩ |
    ⟨t, aid, p, hft, hev, heq | heq⟩
  · rw [heq]
    exact hg
  · have hft2 : s.taskQueue.find? (isReady s.taskQueue) = some t := hft
    have htmem : t ∈ s.taskQueue := List.mem_of_find?_eq_some hft2
    have hready := List.find?_some hft2
    unfold isReady at hready
    simp only [Bool.and_eq_true, beq_iff_eq] at hready
    have hT2 : (s.taskQueue.map Task.id).Nodup := hg.2.1
    have hfind : s.taskQueue.find? (fun u => u.id == t.id) = some t :=
      find?_id_of_mem hT2 htmem rfl
    rw [heq]
    show GoodConfig (handleTaskSplitting s t sid1 sid2, fl)
    have heqsplit : handleTaskSplitting s t sid1 sid2 =
        { s with taskQueue := sortQueue (s.taskQueue.map (fun u =>
            if u.id = t.id then
              { u with status := TaskStatus.waitingForSubtasks,
                       subtasks := u.subtasks ++ [sid1, sid2] } else u) ++
          [mkSubtask s.agents t.id
            { description := "Subtask 1: Initial phase of " ++ t.description,
              domainLabel := t.domainLabel,
              complexityScore := ((⌈t.complexityScore / 2⌉ : ℤ) : ℚ),
              priority := some (priOr1 t.priority + 1), dependencies := [] } sid1,
           mkSubtask s.agents t.id
            { description := "Subtask 2: Conclusion of " ++ t.description,
              domainLabel := t.domainLabel,
              complexityScore := ((⌊t.complexityScore / 2⌋ : ℤ) : ℚ),
              priority := t.priority, dependencies := [] } sid2]) } := by
      unfold handleTaskSplitting decomposeTask
      rw [hfind]
      rfl
    rw [heqsplit]
    exact goodConfig_decompose s fl t _ _ sid1 sid2
      ⟨hg.1, hT2, hg.2.2.1, hg.2.2.2.1, hg.2.2.2.2.1, hg.2.2.2.2.2.1,
        hg.2.2.2.2.2.2.1, hg.2.2.2.2.2.2.2.1, hg.2.2.2.2.2.2.2.2.1,
        hg.2.2.2.2.2.2.2.2.2⟩
      h1m h2m hne htmem hready.1.1 hready.1.2
      rfl rfl rfl rfl rfl rfl rfl rfl _ (fun u => rfl)
  · have hft2 : s.taskQueue.find? (isReady s.taskQueue) = some t := hft
    have htmem : t ∈ s.taskQueue := List.mem_of_find?_eq_some hft2
    have hready := List.find?_some hft2
    unfold isReady at hready
    simp only [Bool.and_eq_true, beq_iff_eq] at hready
    rw [heq]
    show GoodConfig (assignTaskToAgent s t.id aid p, (t.id, aid) :: fl)
    exact goodConfig_assign s fl t aid p hg htmem hready.1.1 hready.1.2 hev
      s id (List.map_id _).symm rfl (fun u => ⟨rfl, rfl, rfl, rfl, rfl⟩)
  · have hft2 : s.taskQueue.find? (isReady s.taskQueue) = some t := hft
    have htmem : t ∈ s.taskQueue := List.mem_of_find?_eq_some hft2
    have hready := List.find?_some hft2
    unfold isReady at hready
    simp only [Bool.and_eq_true, beq_iff_eq] at hready
    rw [heq]
    show GoodConfig (assignTaskToAgent (handleTaskCollaboration s t.id) t.id aid p,
      (t.id, aid) :: fl)
    refine goodConfig_assign s fl t aid p hg htmem hready.1.1 hready.1.2 hev
      (handleTaskCollaboration s t.id)
      (fun u => if u.id = t.id then
        { u with isCollaborative := true,
                 priority := some (min (priOr1 u.priority + 2) 10) } else u)
      rfl rfl ?_
    intro u
    by_cases h : u.id = t.id
    · refine ⟨?_, ?_, ?_, ?_, ?_⟩ <;> simp [h]
    · refine ⟨?_, ?_, ?_, ?_, ?_⟩ <;> simp [h]

/-- Normal form of `handleTaskFailure` (with the task-domain string
read for the learning update abstracted away). -/
theorem handleTaskFailure_eq (s : EngineState) (tid aid : String) :
    ∃ dom : String, handleTaskFailure s tid aid =
      updateTask (if s.agents.any (fun a => a.id == aid) then
          updateAgentPerformance (setAgentStatus s aid AgentStatus.idle) aid false 0 dom
        else s) tid (fun u =>
          if u.retryCount + 1 < 3 then
            { u with retryCount := u.retryCount + 1,
                     failedAgents := u.failedAgents ++ [aid],
                     status := TaskStatus.pending, assignedTo := none }
          else
            { u with retryCount := u.retryCount + 1,
                     failedAgents := u.failedAgents ++ [aid],
                     status := TaskStatus.failed }) :=
  ⟨_, rfl⟩

/-- Settling an in-flight dispatch — failure, low-confidence
reassignment or successful completion with aggregation — preserves the
strengthened invariant. -/
theorem step_resolve_good (s : EngineState) (fl : List (String × String))
    (tid aid : String) (outcome : DispatchOutcome)
    (hg : GoodConfig (s, fl)) (hmem : (tid, aid) ∈ fl) :
    GoodConfig (applyDispatchOutcome s tid aid outcome, fl.erase (tid, aid)) := by
  have hT2 : (s.taskQueue.map Task.id).Nodup := hg.2.1
  have hA3 : ∀ a ∈ s.agents, a.id ≠ "AGGREGATOR_SYSTEM" := hg.2.2.1
  have hPar : ∀ t ∈ s.taskQueue, ∀ pid, t.parentTaskId = some pid →
      ∃ u ∈ s.taskQueue, u.id = pid ∧ u.subtasks ≠ [] := hg.2.2.2.2.2.2.2.2.1
  have hSub : ∀ u ∈ s.taskQueue, u.subtasks ≠ [] → u.status ≠ TaskStatus.processing :=
    hg.2.2.2.2.2.2.2.2.2
  obtain ⟨T, hTq, hTid, hTproc, hTass⟩ := hg.2.2.2.2.2.2.1 (tid, aid) hmem
  have hfRetry : ∀ gF : Task → Task,
      (∀ u, gF u = if u.id = tid then
        (if u.retryCount + 1 < 3 then
          { u with retryCount := u.retryCount + 1,
                   failedAgents := u.failedAgents ++ [aid],
                   status := TaskStatus.pending, assignedTo := none }
        else
          { u with retryCount := u.retryCount + 1,
                   failedAgents := u.failedAgents ++ [aid],
                   status := TaskStatus.failed }) else u) →
      ∀ t ∈ s.taskQueue,
        (gF t).id = t.id ∧ (gF t).subtasks = t.subtasks ∧
        (gF t).parentTaskId = t.parentTaskId ∧
        (((gF t).status = t.status ∧ (gF t).assignedTo = t.assignedTo) ∨
          t.id = tid ∨ t.subtasks ≠ []) ∧
        ((gF t).status = TaskStatus.processing →
          t.status = TaskStatus.processing ∧ (gF t).assignedTo = t.assignedTo) ∧
        (t.id = tid → (gF t).status ≠ TaskStatus.processing) := by
    intro gF hgF t ht
    by_cases h : t.id = tid
    · by_cases hr : t.retryCount + 1 < 3
      · rw [hgF, if_pos h, if_pos hr]
        refine ⟨by simp, by simp, by simp, Or.inr (Or.inl h), ?_, ?_⟩
        · intro hp
          exact absurd hp (by simp)
        · intro _
          simp
      · rw [hgF, if_pos h, if_neg hr]
        refine ⟨by simp, by simp, by simp, Or.inr (Or.inl h), ?_, ?_⟩
        · intro hp
          exact absurd hp (by simp)
        · intro _
          simp
    · rw [hgF, if_neg h]
      exact ⟨rfl, rfl, rfl, Or.inl ⟨rfl, rfl⟩, fun hp => ⟨hp, rfl⟩, fun he => absurd he h⟩
  cases outcome with
  | rejected =>
    show GoodConfig (handleTaskFailure s tid aid, fl.erase (tid, aid))
    obtain ⟨dom, hfail⟩ := handleTaskFailure_eq s tid aid
    rw [hfail]
    obtain ⟨g, hgeq, hgp⟩ := release_agents_map s aid false 0 dom
    refine goodConfig_update_release s fl tid aid hg hmem _
      (fun u => if u.id = tid then
        (if u.retryCount + 1 < 3 then
          { u with retryCount := u.retryCount + 1,
                   failedAgents := u.failedAgents ++ [aid],
                   status := TaskStatus.pending, assignedTo := none }
        else
          { u with retryCount := u.retryCount + 1,
                   failedAgents := u.failedAgents ++ [aid],
                   status := TaskStatus.failed }) else u)
      g ?_ ?_ (hfRetry _ (fun u => rfl)) hgp
    · rw [updateTask_taskQueue]
      have hbase : (if s.agents.any (fun a => a.id == aid) then
          updateAgentPerformance (setAgentStatus s aid AgentStatus.idle) aid false 0 dom
        else s).taskQueue = s.taskQueue := by
        split
        · rw [updateAgentPerformance_taskQueue]
          rfl
        · rfl
      rw [hbase]
    · exact hgeq
  | resolved r =>
    by_cases hconf : r.confidenceScore.jlt (6 / 10) = true
    · have happ : applyDispatchOutcome s tid aid (DispatchOutcome.resolved r) =
          handleTaskReassignment s tid aid := by
        simp only [applyDispatchOutcome]
        rw [if_pos hconf]
      rw [happ]
      refine goodConfig_update_release s fl tid aid hg hmem _
        (fun u => if u.id = tid then
          (if u.retryCount + 1 < 3 then
            { u with retryCount := u.retryCount + 1,
                     failedAgents := u.failedAgents ++ [aid],
                     status := TaskStatus.pending, assignedTo := none }
          else
            { u with retryCount := u.retryCount + 1,
                     failedAgents := u.failedAgents ++ [aid],
                     status := TaskStatus.failed }) else u)
        (fun a => if a.id = aid then { a with status := AgentStatus.idle } else a)
        rfl rfl (hfRetry _ (fun u => rfl)) ?_
      intro a _
      by_cases h : a.id = aid
      · exact ⟨by simp [h], fun _ => by simp [h], fun hne => absurd h hne⟩
      · exact ⟨by simp [h], fun he => absurd he h, fun _ => by simp [h]⟩
    · have happ : applyDispatchOutcome s tid aid (DispatchOutcome.resolved r) =
          logOutput s.taskQueue.length s tid aid r := by
        simp only [applyDispatchOutcome]
        rw [if_neg hconf]
      rw [happ]
      obtain ⟨f, g, hq, ha, hco, hdone, hgp⟩ :=
        logOutput_effect s.taskQueue.length s tid aid r hT2 hSub hPar hA3
      refine goodConfig_update_release s fl tid aid hg hmem _ f g hq ha ?_ ?_
      · intro t ht
        obtain ⟨c1, c2, c3, c4, c5⟩ := hco t ht
        refine ⟨c1, c3, c4, ?_, ?_, ?_⟩
        · rcases c5 with h | ⟨hc, hd⟩
          · exact Or.inl ⟨h, c2⟩
          · rcases hd with hsub2 | hid2
            · exact Or.inr (Or.inr hsub2)
            · exact Or.inr (Or.inl hid2)
        · intro hproc
          rcases c5 with h | ⟨hc, -⟩
          · refine ⟨?_, c2⟩
            rw [← h]
            exact hproc
          · rw [hc] at hproc
            exact absurd hproc (by simp)
        · intro hidt
          rw [hdone t ht hidt]
          simp
      · intro a haa
        obtain ⟨p1, p2, p3⟩ := hgp a haa
        exact ⟨p1, p2 ⟨T, hTq, hTid⟩, p3⟩

/-- Every configuration reachable under the submission schema of the
specification satisfies the strengthened invariant. -/
theorem reach_goodConfig (vd : List String) (c : Config)
    (h : Reach vd true c) : GoodConfig c := by
  induction h with
  | init => exact goodConfig_init
  | step hr hst ih =>
    cases hst with
    | register s fl m genId hfresh hstrict =>
      exact step_register_good vd s fl m genId ih hfresh (hstrict rfl)
    | submit s fl d tid hfresh hstrict =>
      exact step_submit_good vd s fl d tid ih hfresh (hstrict rfl)
    | tick s fl sid1 sid2 ht1 ht2 hne =>
      exact step_tick_good s fl sid1 sid2 ih ht1 ht2 hne
    | resolve s fl taskId agentId outcome hmem2 =>
      exact step_resolve_good s fl taskId agentId outcome ih hmem2

/-- C9 (amended): in every configuration reachable under the submission
schema of the specification — `submitTask` payloads carry no
`parentTaskId`, and no agent is registered under the sentinel id
`AGGREGATOR_SYSTEM` — an agent has status `busy` exactly when some task
of the queue has status `processing` with `assignedTo` equal to that
agent's id.  Over the unrestricted operation surface the claimed
equivalence is false: completing a submitted task that names a
dispatched task as its parent aggregates the parent to `completed`
while its agent stays `busy` (see the separate counterexample
theorem). -/
theorem c9_busy_iff_processing_task (vd : List String) (c : Config)
    (h : Reach vd true c) : AgentTaskInv c.1 :=
  (reach_goodConfig vd c h).2.2.2.1

section KernelComputation

set_option allowUnsafeReducibility true

attribute [local semireducible] Rat.add Rat.mul Rat.inv Rat.sub Rat.div

/-- C1: the claim states that a pending dependency cycle is failed with
reason `CYCLIC_DEPENDENCY_FAILURE` within at most two scheduler ticks.
The engine has no cycle detection at all: on the cyclic three-task
state of scenario S1 every scheduler tick is the identity (the ready
filter simply never selects a task with an uncompleted dependency), so
all three cycle tasks stay `pending` forever and none ever transitions
to `failed`. -/
theorem c1_cycle_tasks_stay_pending_forever :
    (∀ n : ℕ, schedTick^[n] cycState = cycState) ∧
    (∀ n : ℕ, ∀ t ∈ (schedTick^[n] cycState).taskQueue,
      t.status = TaskStatus.pending) := by
  have h : schedTick cycState = cycState := by decide
  refine ⟨fun n => Function.iterate_fixed h n, fun n => ?_⟩
  rw [Function.iterate_fixed h n]
  decide

/-- C2: the claim states that pending dependents of a failed task are
transitively failed with reason `DEPENDENCY_FAILURE_CASCADE`.  The
failure handler performs no such scan: after `X` exhausts its retries
and becomes `failed`, its pending dependent `Y` stays `pending`, every
subsequent tick is the identity, and `Y` is never failed. -/
theorem c2_no_dependency_failure_cascade :
    (∃ t ∈ cascadeAfter.taskQueue, t.id = "X" ∧ t.status = TaskStatus.failed) ∧
    (∃ t ∈ cascadeAfter.taskQueue, t.id = "Y" ∧ t.status = TaskStatus.pending ∧
      t.dependencies = ["X"]) ∧
    (∀ n : ℕ, schedTick^[n] cascadeAfter = cascadeAfter) := by
  refine ⟨by decide, by decide, fun n => Function.iterate_fixed (by decide) n⟩

/-- C3: the claim states that a non-conforming resolved result such as
`{confidenceScore: NaN}` is treated as a dispatch failure (retry count
incremented, no output stored, task not completed).  In the code
`NaN < 0.6` is `false`, so the corrupt result falls through to
`logOutput`: the task is marked `completed`, its retry count stays `0`,
and an output record with `NaN` confidence is stored. -/
theorem c3_nan_result_completes_task :
    (∃ t ∈ nanState.taskQueue, t.id = "T" ∧ t.status = TaskStatus.completed ∧
      t.retryCount = 0) ∧
    (∃ o ∈ nanState.taskOutputs, o.taskId = "T" ∧
      o.confidenceScore = JNum.nan ∧ o.actualImpact = 0) := by
  decide

/-- C5 (counterexample): the claim states the aggregated record's
`predictedImpact` is the arithmetic mean of the children's values.
After the last child of `P` completes (children predicted impacts 6
and 4, mean 5), the stored record's `predictedImpact` is the parent
task's own submit-time prediction `9`: `logOutput` stores
`task.predictedImpact` and discards the aggregated mean. -/
theorem c5_counterexample_predicted_impact_not_mean :
    (∃ t ∈ aggAfter.taskQueue, t.id = "P" ∧ t.status = TaskStatus.completed) ∧
    (∃ o, aggAfter.taskOutputs.find? (fun o => o.taskId == "P") = some o ∧
      o.agentId = "AGGREGATOR_SYSTEM" ∧ o.predictedImpact = 9 ∧
      o.predictedImpact ≠ ((6 : ℚ) + 4) / 2) := by
  decide

/-- C6 (counterexample): the claim states the first child of a SPLIT
has priority `p+1` capped at 10, concretely priorities 10 and 10 for a
priority-10 parent.  The code does not cap: splitting the complexity-9
priority-10 task yields a first child of priority 11. -/
theorem c6_counterexample_priority_uncapped :
    (∃ t ∈ bigSplit.taskQueue, t.id = "c1" ∧ t.parentTaskId = some "G" ∧
      t.priority = some 11) ∧
    ¬(∀ t ∈ bigSplit.taskQueue, t.parentTaskId = some "G" →
        priOr1 t.priority ≤ 10) := by
  decide

/-- C7 (counterexample): the claim's formula takes the success-rate
component to be the agent's global success rate, defaulting to 0.5 only
with no history.  The code computes `successRate || 0.5`, so an agent
with one completed task and success rate `0` (history of one failure)
scores `0.826` where the claimed formula gives `0.726`. -/
theorem c7_counterexample_zero_success_rate :
    calculateCompatibility agHist compatTask = 413 / 500 ∧
    compatClaimFormula agHist compatTask = 363 / 500 ∧
    calculateCompatibility agHist compatTask ≠ compatClaimFormula agHist compatTask := by
  refine ⟨by decide, by decide, by decide⟩

/-- C8 (counterexample): the claim states that at every tick the
selected task has maximal priority among the simultaneously ready
tasks.  The scheduler takes the *first* ready task in queue order; on a
queue where a priority-6 ready task precedes a priority-7 ready one
(an order reachable because `handleTaskCollaboration` bumps priorities
without re-sorting), the priority-6 task is selected. -/
theorem c8_counterexample_passes_over_higher_priority :
    (∃ t, findNextTask unsortedState = some t ∧ t.id = "X" ∧
      priOr1 t.priority = 6) ∧
    (∃ u ∈ unsortedState.taskQueue, isReady unsortedState.taskQueue u = true ∧
      priOr1 u.priority = 7) := by
  decide

/-- C10: `decomposeTask` (and hence the SPLIT remediation) pushes
sub-tasks into the queue without running `validateTask`: splitting the
complexity-1 task creates a pending sub-task of complexity
`⌊1/2⌋ = 0`, and the corresponding submission payload is rejected by
`validateTask` (so `submitTask` would throw `INVALID_TASK` on it). -/
theorem c10_split_bypasses_validation :
    (∃ t ∈ minSplit.taskQueue, t.id = "d2" ∧ t.status = TaskStatus.pending ∧
      t.complexityScore = 0 ∧ t.description = "Subtask 2: Conclusion of O" ∧
      t.domainLabel = "logic") ∧
    validateTask ["logic"] minChildData = false ∧
    minChildData.complexityScore = some 0 := by
  decide

/-- Witness for C5 (amended) at scenario S4: children with confidence
0.8 and 0.9 and actual impacts 6 and 4 yield an aggregate with
confidence 0.85 and actual impact 5.0 under `AGGREGATOR_SYSTEM`. -/
theorem c5_witness :
    (((checkAndAggregateParent 3 aggDoneState "P").taskQueue.find?
        (fun t => t.id == "P")).map Task.status = some TaskStatus.completed) ∧
    (∃ rec, (checkAndAggregateParent 3 aggDoneState "P").taskOutputs.find?
        (fun o => o.taskId == "P") = some rec ∧
      rec.agentId = "AGGREGATOR_SYSTEM" ∧
      rec.confidenceScore = JNum.num (17 / 20) ∧
      rec.actualImpact = 5 ∧ rec.executionTime = JNum.num 150) := by
  obtain ⟨h1, rec, hfind, hagid, hconf, hact, hexec, hpred, hdata⟩ :=
    c5_aggregation_amended aggDoneState "P" aggParent [aggChild1, aggChild2Done]
      [aggOut1, aggOut2] 2 (by decide) (by decide) rfl (by decide) (by decide)
      (by decide) (by decide)
  refine ⟨h1, rec, hfind, hagid, ?_, ?_, ?_⟩
  · rw [hconf]
    decide
  · rw [hact]
    decide
  · rw [hexec]
    decide

/-- Witness for C8 (amended) on the sorted two-task queue: the
priority-7 task is selected and dominates every ready task. -/
theorem c8_witness :
    priTaskY ∈ sortedState.taskQueue ∧
    isReady sortedState.taskQueue priTaskY = true ∧
    ∀ u ∈ sortedState.taskQueue, isReady sortedState.taskQueue u = true →
      priOr1 u.priority ≤ priOr1 priTaskY.priority :=
  c8_max_priority_when_queue_sorted sortedState priTaskY (by decide) (by decide)

/-- C9 (counterexample): over the unrestricted operation surface —
`submitTask` stores a caller-supplied `parentTaskId` verbatim — the
busy/processing equivalence fails on a reachable configuration.
Register agents `A` and `B`, submit `P` and dispatch it to `A`, then
submit the interloper `S` declaring `P` as its parent and dispatch it
to `B`; when `S` resolves, `checkAndAggregateParent` finds every
recorded child of the still-`processing` parent `P` completed and logs
an aggregate for `P` under `AGGREGATOR_SYSTEM`, marking `P` completed
while `A` is still `busy`: agent `A` is busy with no processing task
assigned to it. -/
theorem c9_counterexample :
    ∃ c : Config, Reach ["logic"] false c ∧
      ∃ a ∈ c.1.agents, a.status = AgentStatus.busy ∧
        ¬∃ t ∈ c.1.taskQueue, t.status = TaskStatus.processing ∧
          t.assignedTo = some a.id := by
  refine ⟨_, Reach.step (Reach.step (Reach.step (Reach.step (Reach.step (Reach.step
    (Reach.step Reach.init
      (Step.register _ _ regMetaA "g1" (by decide) (by decide)))
      (Step.register _ _ regMetaB "g2" (by decide) (by decide)))
      (Step.submit _ _ subDataP "P" (by decide) (by decide)))
      (Step.tick _ _ "x1" "x2" (by decide) (by decide) (by decide)))
      (Step.submit _ _ subDataS "S" (by decide) (by decide)))
      (Step.tick _ _ "x3" "x4" (by decide) (by decide) (by decide)))
      (Step.resolve _ _ "S" "B" (DispatchOutcome.resolved goodResult) (by decide)), ?_⟩
  decide

/-- C9 witness: a concrete strict trace — register `A`, submit `P`,
dispatch it, resolve it successfully — reaching a configuration on
which the amended invariant is instantiated. -/
theorem c9_witness : ∃ c : Config, Reach ["logic"] true c ∧ AgentTaskInv c.1 := by
  have hr : Reach ["logic"] true _ := Reach.step (Reach.step (Reach.step
    (Reach.step Reach.init
      (Step.register _ _ regMetaA "g1" (by decide) (by decide)))
      (Step.submit _ _ subDataP "P" (by decide) (by decide)))
      (Step.tick _ _ "x1" "x2" (by decide) (by decide) (by decide)))
      (Step.resolve _ _ "P" "A" (DispatchOutcome.resolved goodResult) (by decide))
  exact ⟨_, hr, c9_busy_iff_processing_task ["logic"] _ hr⟩

end KernelComputation

end LOC
